import Mathlib

/-!
# Verification of the `lcmd` LPK build pipeline

A shallow embedding of the LPK build pipeline of the `terraform-provider-lcmd`
repository (package `internal/provider`, notably the `lpk_build` resource) and
proofs of the specified properties.

Modelling conventions:
* Terraform framework values (`types.String`, `types.Bool`) are embedded as
  three-valued inductives (`TString`, `TBool`) mirroring null / unknown / value.
* The filesystem is a list of files (path, byte content as `String`,
  modification time).  Directories are implicit in paths; `os.RemoveAll`
  removes every file at or below a path prefix.
* External effects (SHA-256, YAML unmarshalling, the process environment,
  `git clone` / `git checkout`, the external build command, the registry
  upload client, `os.MkdirTemp`) are parameters gathered in `Ext`; their
  observable calls are recorded in an event trace.  SHA-256 is an
  uninterpreted function `String → String`; the YAML parser is an
  uninterpreted function returning a `ManifestYAML`.
* Fallible Go functions return `Except GoError α`; functions that also mutate
  the world return `Except GoError α × World`.
-/

/-- Embedding of `terraform-plugin-framework` `types.String`:
null / unknown / known value. -/
inductive TString where
  | null
  | unknown
  | strVal (s : String)
deriving Repr, DecidableEq

/-- `types.String.IsNull()`. -/
def TString.isNull : TString → Bool
  | .null => true
  | _ => false

/-- `types.String.IsUnknown()`. -/
def TString.isUnknown : TString → Bool
  | .unknown => true
  | _ => false

/-- `types.String.ValueString()`: the value, or `""` for null/unknown. -/
def TString.valueString : TString → String
  | .strVal s => s
  | _ => ""

/-- Embedding of `terraform-plugin-framework` `types.Bool`. -/
inductive TBool where
  | null
  | unknown
  | boolVal (b : Bool)
deriving Repr, DecidableEq

/-- `types.Bool.IsNull()`. -/
def TBool.isNull : TBool → Bool
  | .null => true
  | _ => false

/-- `types.Bool.ValueBool()`: the value, or `false` for null/unknown. -/
def TBool.valueBool : TBool → Bool
  | .boolVal b => b
  | _ => false

/-- Go `error` values as a small inductive: plain errors (`errors.New`,
`fmt.Errorf` without wrapping), `text/template`'s `ExecError` (whose
`Error()` is its inner error's message), and `fmt.Errorf("...: %w", err)`
wrapping. -/
inductive GoError where
  | simple (msg : String)
  | execError (name : String) (inner : GoError)
  | wrapped (pre : String) (inner : GoError)
deriving Repr, DecidableEq

/-- Decidable equality for `Except` results (not provided by core). -/
instance instDecEqExcept {ε α : Type} [DecidableEq ε] [DecidableEq α] :
    DecidableEq (Except ε α) := fun a b =>
  match a, b with
  | .ok x, .ok y => if h : x = y then .isTrue (by rw [h]) else .isFalse (by simp [h])
  | .error x, .error y => if h : x = y then .isTrue (by rw [h]) else .isFalse (by simp [h])
  | .ok _, .error _ => .isFalse (by simp)
  | .error _, .ok _ => .isFalse (by simp)

/-- `err.Error()`. -/
def GoError.message : GoError → String
  | .simple m => m
  | .execError _ inner => inner.message
  | .wrapped pre inner => pre ++ inner.message

/-- A regular file: absolute path, byte content, modification time. -/
structure FSFile where
  path : String
  content : String
  mtime : Nat
deriving Repr, DecidableEq

/-- The filesystem: a list of regular files. -/
abbrev FS := List FSFile

/-- First file stored at `p`, if any (the embedding keeps paths unique for
well-formed worlds; lookup takes the first match). -/
def FS.lookupFile (fs : FS) (p : String) : Option FSFile :=
  fs.find? (fun f => f.path == p)

/-- Go `strings.HasPrefix` over raw characters. -/
def strStartsWith (s pre : String) : Bool :=
  pre.data.isPrefixOf s.data

/-- Go `strings.HasSuffix` over raw characters. -/
def strEndsWith (s suf : String) : Bool :=
  suf.data.isSuffixOf s.data

/-- Go `strings.TrimSuffix`. -/
def trimSuffixStr (s suf : String) : String :=
  if strEndsWith s suf then ⟨s.data.take (s.data.length - suf.data.length)⟩ else s

/-- Go `strings.TrimSpace` (leading and trailing whitespace stripped). -/
def trimSpace (s : String) : String :=
  ⟨((s.data.dropWhile Char.isWhitespace).reverse.dropWhile Char.isWhitespace).reverse⟩

/-- `filepath.Base`: the final path element (characters after the last `/`). -/
def baseName (p : String) : String :=
  ⟨(p.data.reverse.takeWhile (fun c => c ≠ '/')).reverse⟩

/-- `p` lies at or below directory `dir`. -/
def underDir (dir p : String) : Bool :=
  p == dir || strStartsWith p (dir ++ "/")

/-- `p` is a direct child of directory `dir` (no further separator). -/
def isDirectChild (dir p : String) : Bool :=
  strStartsWith p (dir ++ "/") && (p.data.drop (dir.data.length + 1)).all (fun c => c ≠ '/')

/-- `os.WriteFile`: create or truncate the file at `p`. -/
def FS.writeFile (fs : FS) (p content : String) (mtime : Nat) : FS :=
  fs.filter (fun f => f.path ≠ p) ++ [⟨p, content, mtime⟩]

/-- `os.Rename src dst` (source assumed present; destination replaced). -/
def renameFile (fs : FS) (src dst : String) : FS :=
  match FS.lookupFile fs src with
  | none => fs
  | some f => fs.filter (fun g => g.path ≠ src ∧ g.path ≠ dst) ++ [⟨dst, f.content, f.mtime⟩]

/-- `os.RemoveAll dir`: drop every file at or below `dir`. -/
def removeAllDir (fs : FS) (dir : String) : FS :=
  fs.filter (fun f => !underDir dir f.path)

/-- Observable external side effects, in call order. -/
inductive Event where
  | buildInvoke (env : Option (List String))
  | uploadCall (name version lpkPath : String)
  | cloneCall (url : String)
  | checkoutCall (ref : String)
  | removeAllCall (dir : String)
deriving Repr, DecidableEq

/-- The mutable world: filesystem plus the trace of external calls. -/
structure World where
  fs : FS
  trace : List Event
deriving Repr, DecidableEq

/-- Whether an event is an invocation of the external build command. -/
def Event.isBuildInvoke : Event → Bool
  | .buildInvoke _ => true
  | _ => false

/-- Whether an event is a registry upload call. -/
def Event.isUploadCall : Event → Bool
  | .uploadCall _ _ _ => true
  | _ => false

/-- Number of build-command invocations recorded in a trace. -/
def countBuildInvokes (tr : List Event) : Nat :=
  (tr.filter Event.isBuildInvoke).length

/-- Number of registry upload calls recorded in a trace. -/
def countUploadCalls (tr : List Event) : Nat :=
  (tr.filter Event.isUploadCall).length

/-- Registry upload response (`UploadLPK` result). -/
structure UploadResp where
  id : String
  downloadURL : String
  sha256 : String
  version : String
deriving Repr, DecidableEq

/-- `manifestYAML`: the parsed `lzc-manifest.yml`. -/
structure ManifestYAML where
  AppID : String
  Version : String
  Name : String
deriving Repr, DecidableEq

/-- External collaborators and their behaviour for one pipeline run:
SHA-256 (uninterpreted content-hash function), the YAML parser, the
process environment, `os.MkdirTemp` (the fresh directory name and whether
creation succeeds), the effects/exit status of `git clone`, `git checkout`
and the external build command, the configured user and the registry
upload client. -/
structure Externals where
  hash : String → String
  unmarshalManifest : String → Except String ManifestYAML
  procEnviron : List String
  tmpName : String
  mkdirOk : Bool
  cloneOk : Bool
  cloneEffect : FS → FS
  checkoutOk : Bool
  checkoutEffect : FS → FS
  buildOk : Bool
  buildEffect : FS → FS
  user : String
  upload : String → String → String → String → Except GoError UploadResp

/-- `LPKBuildSourceLocalModel`. -/
structure LPKBuildSourceLocalModel where
  Path : TString
deriving Repr, DecidableEq

/-- `LPKBuildSourceGitModel`. -/
structure LPKBuildSourceGitModel where
  URL : TString
  Ref : TString
  Subpath : TString
deriving Repr, DecidableEq

/-- `LPKBuildSourceModel` (nil pointers become `Option`). -/
structure LPKBuildSourceModel where
  Local : Option LPKBuildSourceLocalModel
  Git : Option LPKBuildSourceGitModel
deriving Repr, DecidableEq

/-- `LPKBuildBuildModel`. -/
structure LPKBuildBuildModel where
  Command : TString
deriving Repr, DecidableEq

/-- `LPKBuildPublishModel`. -/
structure LPKBuildPublishModel where
  Enabled : TBool
  Name : TString
  Version : TString
deriving Repr, DecidableEq

/-- `LPKBuildEnvModel` (`Variables` is a Go map; embedded as an association
list with unique keys). -/
structure LPKBuildEnvModel where
  Variables : List (String × TString)
  TemplateExtension : TString
deriving Repr, DecidableEq

/-- `LPKBuildModel`: the resource model. -/
structure LPKBuildModel where
  ID : TString
  Source : Option LPKBuildSourceModel
  Build : Option LPKBuildBuildModel
  Publish : Option LPKBuildPublishModel
  Env : Option LPKBuildEnvModel
  LPKURL : TString
  SHA256 : TString
  AppID : TString
  Version : TString
  LocalPath : TString
  UploadID : TString
deriving Repr, DecidableEq

/-- `lpkMetadata`. -/
structure lpkMetadata where
  AppID : String
  Version : String
  SHA256 : String
  Name : String
deriving Repr, DecidableEq

/-- `defaultTemplateExtension`. -/
def defaultTemplateExtension : String := ".tmpl"

/-- Go map assignment `m[k] = v` on an association-list map: any previous
binding of `k` is dropped and the new one appended (unique keys preserved). -/
def mapPut (m : List (String × String)) (k v : String) : List (String × String) :=
  m.filter (fun p => p.1 ≠ k) ++ [(k, v)]

/-- Go map lookup `m[k]` on an association-list map. -/
def alook : List (String × String) → String → Option String
  | [], _ => none
  | (k, v) :: rest, key => if k == key then some v else alook rest key

/-- `collectEnvVars`: keep only known, non-null variables; a map with no
surviving entry is the nil map (the empty list). -/
def collectEnvVars (env : Option LPKBuildEnvModel) : List (String × String) :=
  match env with
  | none => []
  | some e =>
    if e.Variables.length = 0 then []
    else
      let values := e.Variables.foldl
        (fun acc kv =>
          if kv.2.isNull || kv.2.isUnknown then acc
          else mapPut acc kv.1 kv.2.valueString) []
      if values.length = 0 then [] else values

/-- `resolveTemplateExtension`. -/
def resolveTemplateExtension (env : Option LPKBuildEnvModel) : String :=
  match env with
  | none => defaultTemplateExtension
  | some e =>
    if e.TemplateExtension.isNull || e.TemplateExtension.isUnknown then
      defaultTemplateExtension
    else
      let ext := trimSpace e.TemplateExtension.valueString
      if ext = "" then defaultTemplateExtension
      else if strStartsWith ext "." then ext
      else "." ++ ext

/-- The constant Go calls `prefix` inside `extractMissingKey`. -/
def missingKeyMarker : String := "map has no entry for key "

/-- `strings.Trim(s, "\"")`: strip double quotes from both ends. -/
def trimQuotes (s : String) : String :=
  ⟨((s.data.dropWhile (fun c => c = '"')).reverse.dropWhile (fun c => c = '"')).reverse⟩

/-- `extractMissingKey`. -/
def extractMissingKey (msg : String) : String :=
  if strStartsWith msg missingKeyMarker then
    trimQuotes ⟨msg.data.drop missingKeyMarker.data.length⟩
  else ""

/-- `formatTemplateError`. -/
def formatTemplateError (err : GoError) : GoError :=
  match err with
  | .execError _ inner =>
    let missing := extractMissingKey inner.message
    if missing ≠ "" then .simple ("environment variable " ++ missing ++ " not provided")
    else inner
  | _ => err


/-- One node of a parsed template.  Modelled subset of Go `text/template`:
literal text and field actions (`.KEY` between double braces), which is the
template language this provider's templates use. -/
inductive TmplPart where
  | lit (s : String)
  | fieldRef (key : String)
deriving Repr, DecidableEq

/-- After an opening action marker and a dot: collect the key up to the
closing double brace, returning the key and the remaining input. -/
def scanKey : List Char → Option (List Char × List Char)
  | [] => none
  | '}' :: '}' :: rest => some ([], rest)
  | c :: rest =>
    match scanKey rest with
    | some (k, r) => some (c :: k, r)
    | none => none

/-- Parse template text into parts; fuelled recursion (fuel ≥ input length).
An unterminated action is a parse error, as in `text/template`. -/
def parseParts : Nat → List Char → Except GoError (List TmplPart)
  | 0, _ => .ok []
  | _, [] => .ok []
  | fuel + 1, '{' :: '{' :: '.' :: rest =>
    match scanKey rest with
    | none => .error (.simple "unclosed action")
    | some (k, r) =>
      match parseParts fuel r with
      | .error e => .error e
      | .ok parts => .ok (.fieldRef ⟨k⟩ :: parts)
  | fuel + 1, c :: rest =>
    match parseParts fuel rest with
    | .error e => .error e
    | .ok parts => .ok (.lit ⟨[c]⟩ :: parts)

/-- The message `text/template` produces (via `state.errorf`) when executing
with `missingkey=error` hits an absent map key; location digits are elided. -/
def execMsg (name key : String) : String :=
  "template: " ++ name ++ ": executing \"" ++ name ++ "\" at <." ++ key ++
    ">: map has no entry for key \"" ++ key ++ "\""

/-- `Template.Execute` with `missingkey=error` over the variable map: walk
the parts, substituting field references; an absent key aborts with an
`ExecError` naming the key. -/
def executeParts (name : String) (parts : List TmplPart)
    (vars : List (String × String)) : Except GoError String :=
  parts.foldl
    (fun acc part =>
      match acc with
      | .error e => .error e
      | .ok s =>
        match part with
        | .lit t => .ok (s ++ t)
        | .fieldRef k =>
          match alook vars k with
          | some v => .ok (s ++ v)
          | none => .error (.execError name (.simple (execMsg name k))))
    (.ok "")

/-- `renderTemplateFile`: read, parse, execute, write the rendered output to
the extension-stripped sibling path.  (Permission bits are not modelled; the
rendered file keeps the template's timestamp, which no claim depends on.) -/
def renderTemplateFile (fs : FS) (path extension : String)
    (envVars : List (String × String)) : Except GoError FS :=
  match FS.lookupFile fs path with
  | none => .error (.wrapped ("read template " ++ path ++ ": ")
      (.simple "no such file or directory"))
  | some f =>
    match parseParts f.content.data.length f.content.data with
    | .error e => .error (.wrapped ("parse template " ++ path ++ ": ") e)
    | .ok parts =>
      match executeParts (baseName path) parts envVars with
      | .error e => .error (.wrapped ("render template " ++ path ++ ": ")
          (formatTemplateError e))
      | .ok rendered =>
        .ok (FS.writeFile fs (trimSuffixStr path extension) rendered f.mtime)

/-- Files at or below `baseDir`. -/
def filesUnder (fs : FS) (baseDir : String) : List FSFile :=
  fs.filter (fun f => underDir baseDir f.path)

/-- `renderTemplateFiles`: `filepath.WalkDir` visits regular files in
lexical path order (modelled on the initial snapshot); every file whose name
ends with the extension is rendered, and the first failure aborts the walk. -/
def renderTemplateFiles (fs : FS) (baseDir extension : String)
    (envVars : List (String × String)) : Except GoError FS :=
  let ext := if extension = "" then defaultTemplateExtension else extension
  let paths := List.insertionSort (fun a b => a ≤ b) ((filesUnder fs baseDir).map (·.path))
  paths.foldl
    (fun acc p =>
      match acc with
      | .error e => .error e
      | .ok cur =>
        if strEndsWith (baseName p) ext then renderTemplateFile cur p ext envVars
        else .ok cur)
    (.ok fs)

/-- `filepath.Glob(filepath.Join(dir, "*.lpk"))`: direct children of `dir`
whose base name matches `*.lpk`. -/
def globLPK (fs : FS) (dir : String) : List FSFile :=
  fs.filter (fun f => isDirectChild dir f.path && strEndsWith f.path ".lpk")

/-- `findLatestLPK`: glob for `*.lpk` directly in `dir`; zero matches is an
error, otherwise sort by modification time descending and take the first. -/
def findLatestLPK (fs : FS) (dir : String) : Except GoError FSFile :=
  let ms := globLPK fs dir
  if ms.isEmpty then .error (.simple "no .lpk artifact produced")
  else
    match List.insertionSort (fun a b => b.mtime ≤ a.mtime) ms with
    | [] => .error (.simple "no .lpk artifact produced")
    | x :: _ => .ok x

/-- `readManifest` (YAML unmarshalling is the uninterpreted parser in
`Externals`). -/
def readManifest (ex : Externals) (fs : FS) (path : String) :
    Except GoError ManifestYAML :=
  match FS.lookupFile fs path with
  | none => .error (.simple ("open " ++ path ++ ": no such file or directory"))
  | some f =>
    match ex.unmarshalManifest f.content with
    | .error msg => .error (.simple msg)
    | .ok m => .ok m

/-- `computeSHA`: hex SHA-256 of the file's bytes (uninterpreted hash). -/
def computeSHA (ex : Externals) (fs : FS) (path : String) : Except GoError String :=
  match FS.lookupFile fs path with
  | none => .error (.simple ("open " ++ path ++ ": no such file or directory"))
  | some f => .ok (ex.hash f.content)

/-- Split one `os.Environ()` entry at the first `=` (dropped unless the key
part is non-empty). -/
def parsePair (pair : String) : Option (String × String) :=
  match pair.data.findIdx? (fun c => c = '=') with
  | some idx =>
    if idx > 0 then some (⟨pair.data.take idx⟩, ⟨pair.data.drop (idx + 1)⟩)
    else none
  | none => none

/-- `commandEnvironment`: overlay the supplied variables on the inherited
process environment and serialize `KEY=VALUE` pairs in sorted key order
(nil for an empty overlay). -/
def commandEnvironment (procEnviron : List String)
    (custom : List (String × String)) : List String :=
  if custom.isEmpty then []
  else
    let base := procEnviron.foldl
      (fun m pair =>
        match parsePair pair with
        | some kv => mapPut m kv.1 kv.2
        | none => m) []
    let values := custom.foldl (fun m kv => mapPut m kv.1 kv.2) base
    let keys := List.insertionSort (fun a b => a ≤ b) (values.map Prod.fst)
    keys.map (fun k => k ++ "=" ++ ((alook values k).getD ""))

/-- `shouldPublish`. -/
def shouldPublish (pub : Option LPKBuildPublishModel) : Bool :=
  match pub with
  | none => true
  | some p => if p.Enabled.isNull then true else p.Enabled.valueBool

/-- `canReuseUpload`. -/
def canReuseUpload (prior : Option LPKBuildModel) (meta : lpkMetadata) : Bool :=
  match prior with
  | none => false
  | some p =>
    if p.UploadID.isNull || p.UploadID.valueString = "" then false
    else if p.LPKURL.isNull || p.LPKURL.valueString = "" then false
    else if p.SHA256.isNull || p.SHA256.valueString ≠ meta.SHA256 then false
    else true

/-- `defaultBuildCommand` (the literal in `runBuild`). -/
def defaultBuildCommand : String := "npx lzc-cli project build ."

/-- The `if pub != nil && !pub.Version.IsNull() && pub.Version.ValueString() != ""`
override `runBuild` applies to the metadata version. -/
def overrideVersion (pub : Option LPKBuildPublishModel) (base : String) : String :=
  match pub with
  | some p =>
    if !p.Version.isNull && p.Version.valueString ≠ "" then p.Version.valueString else base
  | none => base

/-- The corresponding override for the metadata name. -/
def overrideName (pub : Option LPKBuildPublishModel) (base : String) : String :=
  match pub with
  | some p =>
    if !p.Name.isNull && p.Name.valueString ≠ "" then p.Name.valueString else base
  | none => base

/-- The shared tail of `runBuild` after the cache check / build-and-rename:
hash the artifact at the canonical path and assemble the metadata, applying
the publish-config version/name overrides. -/
def finishBuild (ex : Externals) (w : World) (artifactPath artifactBase : String)
    (manifest : ManifestYAML) (pub : Option LPKBuildPublishModel) :
    Except GoError (String × lpkMetadata) × World :=
  match computeSHA ex w.fs artifactPath with
  | .error e => (.error e, w)
  | .ok sha =>
    (.ok (artifactPath,
      { AppID := manifest.AppID, Version := overrideVersion pub manifest.Version,
        SHA256 := sha, Name := overrideName pub artifactBase }), w)

/-- `runBuild`: read and validate the manifest, derive the canonical
artifact path from the manifest hash, skip the build command when the
artifact already exists, otherwise invoke it (recording the environment it
receives), collect the newest `*.lpk` and rename it to the canonical path.
(`os.Stat` outcomes other than exists / not-exists are not modelled, and
`os.Rename` of the globbed file is assumed to succeed.) -/
def runBuild (ex : Externals) (w : World) (path : String)
    (build : Option LPKBuildBuildModel) (pub : Option LPKBuildPublishModel)
    (envVars : List (String × String)) :
    Except GoError (String × lpkMetadata) × World :=
  let manifestPath := path ++ "/lzc-manifest.yml"
  match readManifest ex w.fs manifestPath with
  | .error e => (.error (.wrapped "read manifest: " e), w)
  | .ok manifest =>
    if manifest.Name = "" then (.error (.simple "manifest name must be set"), w)
    else if manifest.Version = "" then
      (.error (.simple "manifest version must be set"), w)
    else
      match computeSHA ex w.fs manifestPath with
      | .error e => (.error (.wrapped "compute manifest hash: " e), w)
      | .ok manifestHash =>
        let artifactBase := manifest.Name ++ "-" ++ manifest.Version ++ "-" ++ manifestHash
        let artifactPath := path ++ "/" ++ artifactBase ++ ".lpk"
        if (FS.lookupFile w.fs artifactPath).isSome then
          finishBuild ex w artifactPath artifactBase manifest pub
        else
          let command :=
            match build with
            | some b =>
              if !b.Command.isNull && b.Command.valueString ≠ "" then b.Command.valueString
              else defaultBuildCommand
            | none => defaultBuildCommand
          let cmdEnv : Option (List String) :=
            if envVars.length > 0 then some (commandEnvironment ex.procEnviron envVars)
            else none
          let w1 : World :=
            { fs := ex.buildEffect w.fs, trace := w.trace ++ [Event.buildInvoke cmdEnv] }
          if ex.buildOk = false then
            (.error (.simple ("command failed: " ++ command)), w1)
          else
            match findLatestLPK w1.fs path with
            | .error e => (.error e, w1)
            | .ok out =>
              let w2 :=
                if out.path = artifactPath then w1
                else { w1 with fs := renameFile w1.fs out.path artifactPath }
              finishBuild ex w2 artifactPath artifactBase manifest pub

/-- `prepareSource`: resolve the source descriptor to a working directory.
The returned `Option String` is the cleanup handle: the ephemeral staging
directory to remove, if one was created. -/
def prepareSource (ex : Externals) (w : World) (source : Option LPKBuildSourceModel) :
    Except GoError (String × Option String) × World :=
  match source with
  | none => (.error (.simple "source block is required"), w)
  | some src =>
    match src.Local with
    | some l =>
      if l.Path.isNull || l.Path.valueString = "" then
        (.error (.simple "local.path must be set"), w)
      else (.ok (l.Path.valueString, none), w)
    | none =>
      match src.Git with
      | none => (.error (.simple "either source.local or source.git must be provided"), w)
      | some g =>
        if g.URL.isNull || g.URL.valueString = "" then
          (.error (.simple "git.url must be set"), w)
        else if ex.mkdirOk = false then
          (.error (.simple "mkdir temp: permission denied"), w)
        else
          let tmp := ex.tmpName
          let wClone : World :=
            { fs := ex.cloneEffect w.fs, trace := w.trace ++ [Event.cloneCall g.URL.valueString] }
          if ex.cloneOk = false then
            (.error (.wrapped "git clone failed: " (.simple "exit status 1")),
             { fs := removeAllDir wClone.fs tmp,
               trace := wClone.trace ++ [Event.removeAllCall tmp] })
          else
            let repoPath := tmp ++ "/repo"
            let sub :=
              if !g.Subpath.isNull && g.Subpath.valueString ≠ "" then
                repoPath ++ "/" ++ g.Subpath.valueString
              else repoPath
            if !g.Ref.isNull && g.Ref.valueString ≠ "" then
              let wCo : World :=
                { fs := ex.checkoutEffect wClone.fs,
                  trace := wClone.trace ++ [Event.checkoutCall g.Ref.valueString] }
              if ex.checkoutOk = false then
                (.error (.wrapped "git checkout failed: " (.simple "exit status 1")),
                 { fs := removeAllDir wCo.fs tmp,
                   trace := wCo.trace ++ [Event.removeAllCall tmp] })
              else (.ok (sub, some tmp), wCo)
            else (.ok (sub, some tmp), wClone)

/-- Run the deferred cleanup handle (`defer cleanup()`). -/
def applyCleanup (cleanupDir : Option String) (w : World) : World :=
  match cleanupDir with
  | none => w
  | some d =>
    { fs := removeAllDir w.fs d, trace := w.trace ++ [Event.removeAllCall d] }

/-- The derived resource identity `{appID}-{version}-{contentHash}`. -/
def metaID (meta : lpkMetadata) : String :=
  meta.AppID ++ "-" ++ meta.Version ++ "-" ++ meta.SHA256

/-- `applyBuild`: the orchestrator — resolve the source, render templates,
build, then publish (reusing the prior upload when possible); the deferred
cleanup runs on every exit path after the source was resolved. -/
def applyBuild (ex : Externals) (data : LPKBuildModel)
    (prior : Option LPKBuildModel) (w : World) :
    Except GoError LPKBuildModel × World :=
  match prepareSource ex w data.Source with
  | (.error e, w1) => (.error (.wrapped "source error: " e), w1)
  | (.ok (workdir, cleanupDir), w1) =>
    let envVars := collectEnvVars data.Env
    let ext := resolveTemplateExtension data.Env
    match renderTemplateFiles w1.fs workdir ext envVars with
    | .error e => (.error e, applyCleanup cleanupDir w1)
    | .ok fs2 =>
      match runBuild ex { w1 with fs := fs2 } workdir data.Build data.Publish envVars with
      | (.error e, w3) => (.error e, applyCleanup cleanupDir w3)
      | (.ok (lpkPath, meta), w3) =>
        let d1 : LPKBuildModel :=
          { data with
            LocalPath := .strVal lpkPath, AppID := .strVal meta.AppID,
            Version := .strVal meta.Version, SHA256 := .strVal meta.SHA256,
            LPKURL := .null, UploadID := .null }
        if shouldPublish d1.Publish then
          if canReuseUpload prior meta then
            let d2 :=
              match prior with
              | some pr =>
                { d1 with
                  LPKURL := pr.LPKURL, UploadID := pr.UploadID,
                  Version := if pr.Version.isNull then d1.Version else pr.Version }
              | none => d1
            (.ok { d2 with ID := .strVal (metaID meta) }, applyCleanup cleanupDir w3)
          else
            let uploadName :=
              match d1.Publish with
              | some p =>
                if !p.Name.isNull && p.Name.valueString ≠ "" then p.Name.valueString
                else meta.Name
              | none => meta.Name
            let uploadVersion :=
              match d1.Publish with
              | some p =>
                if !p.Version.isNull && p.Version.valueString ≠ "" then p.Version.valueString
                else meta.Version
              | none => meta.Version
            let w4 : World :=
              { w3 with trace := w3.trace ++ [Event.uploadCall uploadName uploadVersion lpkPath] }
            match ex.upload ex.user uploadName uploadVersion lpkPath with
            | .error e => (.error (.wrapped "upload error: " e), applyCleanup cleanupDir w4)
            | .ok up =>
              let d2 : LPKBuildModel :=
                { d1 with
                  LPKURL := .strVal up.downloadURL, UploadID := .strVal up.id,
                  SHA256 := if up.sha256 ≠ "" then .strVal up.sha256 else d1.SHA256,
                  Version := if up.version ≠ "" then .strVal up.version else d1.Version }
              (.ok { d2 with ID := .strVal (metaID meta) }, applyCleanup cleanupDir w4)
        else
          (.ok { d1 with ID := .strVal (metaID meta) }, applyCleanup cleanupDir w3)

/-- Modelled from the declared `ConfigValidators` (`AtLeastOneOf` and
`Conflicting` over `source.local` / `source.git`) together with the
documented semantics of the `terraform-plugin-framework-validators`
library: no populated variant and both populated variants are rejected
during config validation, before any resource logic runs. -/
def validateSourceConfig (source : Option LPKBuildSourceModel) : Except GoError Unit :=
  let localSet :=
    match source with
    | some s => s.Local.isSome
    | none => false
  let gitSet :=
    match source with
    | some s => s.Git.isSome
    | none => false
  if !localSet && !gitSet then
    .error (.simple "At least one attribute out of [source.local, source.git] must be specified")
  else if localSet && gitSet then
    .error (.simple "These attributes cannot be configured together: [source.local, source.git]")
  else .ok ()

/-- The lifecycle entry point as the plugin framework drives it: config
validation first, then (only if validation passed) the apply. -/
def pipelineApply (ex : Externals) (data : LPKBuildModel)
    (prior : Option LPKBuildModel) (w : World) :
    Except GoError LPKBuildModel × World :=
  match validateSourceConfig data.Source with
  | .error e => (.error e, w)
  | .ok _ => applyBuild ex data prior w

/-! ## Helper lemmas -/

theorem dropWhile_eq_self_of_none {p : Char → Bool} (l : List Char)
    (h : ∀ c ∈ l, p c = false) : l.dropWhile p = l := by
  induction l with
  | nil => rfl
  | cons c rest ih =>
    simp [List.dropWhile_cons, h c (by simp), ih (fun x hx => h x (by simp [hx]))]

theorem trimSpace_eq_self (s : String) (h : ∀ c ∈ s.data, c.isWhitespace = false) :
    trimSpace s = s := by
  unfold trimSpace
  rw [dropWhile_eq_self_of_none s.data h,
    dropWhile_eq_self_of_none s.data.reverse (fun c hc => h c (by simpa using hc)),
    List.reverse_reverse]

theorem strStartsWith_dot_cons (s : String) : strStartsWith ("." ++ s) "." = true := by
  simp [strStartsWith, String.data_append, List.isPrefixOf]

/-- A fold whose step skips elements failing `pred` equals the fold over the
filtered list. -/
theorem foldl_skip_eq_foldl_filter (g : FS → String → Except GoError FS)
    (pred : String → Bool) :
    ∀ (l : List String) (acc : Except GoError FS),
      l.foldl
        (fun a p =>
          match a with
          | .error e => .error e
          | .ok cur => if pred p then g cur p else .ok cur) acc =
      (l.filter pred).foldl
        (fun a p =>
          match a with
          | .error e => .error e
          | .ok cur => g cur p) acc := by
  intro l
  induction l with
  | nil => intro acc; rfl
  | cons p rest ih =>
    intro acc
    rw [List.foldl_cons, ih, List.filter_cons]
    by_cases hp : pred p = true
    · simp only [hp, if_true, List.foldl_cons]
    · simp only [hp, Bool.false_eq_true, if_false]
      congr 1
      cases acc <;> simp [hp]

/-- Unfolding equation for `resolveTemplateExtension` on a known string. -/
theorem resolveTemplateExtension_strVal (vars : List (String × TString)) (s : String) :
    resolveTemplateExtension (some ⟨vars, .strVal s⟩) =
      (if trimSpace s = "" then defaultTemplateExtension
       else if strStartsWith (trimSpace s) "." = true then trimSpace s
       else "." ++ trimSpace s) := rfl

/-! ## C7 -/

/-- C7: a configured template extension behaves identically with and without
a leading dot (both normalize to the dotted form); an unset, whitespace-only
or empty extension defaults to `.tmpl`; and the renderer treats a file as a
template exactly when its name ends with the normalized extension (the walk
is the fold of the per-file renderer over exactly the suffix-matching
files). -/
theorem C7_extension_normalization :
    (∀ (vars : List (String × TString)) (s : String),
        s ≠ "" → (∀ c ∈ s.data, c.isWhitespace = false) → strStartsWith s "." = false →
        resolveTemplateExtension (some ⟨vars, .strVal s⟩) = "." ++ s ∧
        resolveTemplateExtension (some ⟨vars, .strVal ("." ++ s)⟩) = "." ++ s) ∧
    (resolveTemplateExtension none = ".tmpl" ∧
      (∀ vars, resolveTemplateExtension (some ⟨vars, .null⟩) = ".tmpl") ∧
      (∀ vars s, trimSpace s = "" →
        resolveTemplateExtension (some ⟨vars, .strVal s⟩) = ".tmpl")) ∧
    (∀ (fs : FS) (baseDir ext : String) (envVars : List (String × String)), ext ≠ "" →
        renderTemplateFiles fs baseDir ext envVars =
          ((List.insertionSort (fun a b => a ≤ b) ((filesUnder fs baseDir).map (·.path))).filter
              (fun p => strEndsWith (baseName p) ext)).foldl
            (fun acc p =>
              match acc with
              | .error e => .error e
              | .ok cur => renderTemplateFile cur p ext envVars)
            (.ok fs)) := by
  refine ⟨?_, ⟨rfl, fun vars => rfl, ?_⟩, ?_⟩
  · intro vars s hne hws hdot
    have hdotws : ∀ c ∈ ("." ++ s).data, c.isWhitespace = false := by
      intro c hc
      rw [String.data_append] at hc
      rcases List.mem_append.mp hc with h | h
      · have hc' : c = '.' := by simpa using h
        subst hc'; decide
      · exact hws c h
    have hts : trimSpace s = s := trimSpace_eq_self s hws
    have htsd : trimSpace ("." ++ s) = "." ++ s := trimSpace_eq_self _ hdotws
    have hdne : ("." ++ s) ≠ "" := by
      intro hcontra
      have := congrArg String.data hcontra
      simp [String.data_append] at this
    constructor
    · rw [resolveTemplateExtension_strVal, hts]
      simp [hne, hdot]
    · rw [resolveTemplateExtension_strVal, htsd]
      simp [hdne, strStartsWith_dot_cons]
  · intro vars s hts
    rw [resolveTemplateExtension_strVal, hts]
    simp [defaultTemplateExtension]
  · intro fs baseDir ext envVars hne
    unfold renderTemplateFiles
    simp only [if_neg hne]
    exact foldl_skip_eq_foldl_filter (fun cur p => renderTemplateFile cur p ext envVars)
      (fun p => strEndsWith (baseName p) ext) _ (.ok fs)

/-- Closed instantiation of `C7_extension_normalization`. -/
theorem C7_extension_normalization_witness :
    resolveTemplateExtension (some ⟨[], .strVal "j2"⟩) = ".j2" ∧
    resolveTemplateExtension (some ⟨[], .strVal ".j2"⟩) = ".j2" ∧
    resolveTemplateExtension (some ⟨[], .strVal " "⟩) = ".tmpl" ∧
    renderTemplateFiles [⟨"/w/a.txt", "x", 1⟩] "/w" ".j2" [] =
      ([] : List String).foldl
        (fun acc p =>
          match acc with
          | .error e => .error e
          | .ok cur => renderTemplateFile cur p ".j2" [])
        (.ok [⟨"/w/a.txt", "x", 1⟩]) := by
  have h := C7_extension_normalization
  refine ⟨?_, ?_, ?_, ?_⟩
  · exact (h.1 [] "j2" (by decide) (by decide) (by decide)).1
  · have := (h.1 [] "j2" (by decide) (by decide) (by decide)).2
    simpa using this
  · exact h.2.1.2.2 [] " " (by decide)
  · have := h.2.2 [⟨"/w/a.txt", "x", 1⟩] "/w" ".j2" [] (by decide)
    simpa using this

theorem finishBuild_ok {ex : Externals} {w : World} {ap ab : String}
    {manifest : ManifestYAML} {pub : Option LPKBuildPublishModel}
    {p : String} {meta : lpkMetadata} {w' : World}
    (h : finishBuild ex w ap ab manifest pub = (.ok (p, meta), w')) :
    w' = w ∧ p = ap ∧
    ∃ f, FS.lookupFile w.fs ap = some f ∧
      meta = { AppID := manifest.AppID,
               Version := overrideVersion pub manifest.Version,
               SHA256 := ex.hash f.content,
               Name := overrideName pub ab } := by
  unfold finishBuild computeSHA at h
  cases hl : FS.lookupFile w.fs ap with
  | none => rw [hl] at h; exact absurd h (by simp)
  | some f =>
    rw [hl] at h
    simp only [Prod.mk.injEq, Except.ok.injEq] at h
    obtain ⟨⟨hp, hmeta⟩, hw⟩ := h
    exact ⟨hw.symm, hp.symm, f, rfl, hmeta.symm⟩

theorem runBuild_ok {ex : Externals} {w : World} {path : String}
    {build : Option LPKBuildBuildModel} {pub : Option LPKBuildPublishModel}
    {envVars : List (String × String)} {p : String} {meta : lpkMetadata} {w' : World}
    (h : runBuild ex w path build pub envVars = (.ok (p, meta), w')) :
    ∃ mf manifest,
      FS.lookupFile w.fs (path ++ "/lzc-manifest.yml") = some mf ∧
      ex.unmarshalManifest mf.content = .ok manifest ∧
      manifest.Name ≠ "" ∧ manifest.Version ≠ "" ∧
      p = path ++ "/" ++ (manifest.Name ++ "-" ++ manifest.Version ++ "-" ++ ex.hash mf.content) ++ ".lpk" ∧
      (∃ f, FS.lookupFile w'.fs p = some f ∧
        meta = { AppID := manifest.AppID,
                 Version := overrideVersion pub manifest.Version,
                 SHA256 := ex.hash f.content,
                 Name := overrideName pub
                   (manifest.Name ++ "-" ++ manifest.Version ++ "-" ++ ex.hash mf.content) }) ∧
      ((FS.lookupFile w.fs p).isSome = true → w' = w) ∧
      ((FS.lookupFile w.fs p).isSome = false →
        ex.buildOk = true ∧
        w'.trace = w.trace ++ [Event.buildInvoke
          (if envVars.length > 0 then some (commandEnvironment ex.procEnviron envVars)
           else none)] ∧
        ∃ out, findLatestLPK (ex.buildEffect w.fs) path = .ok out ∧
          w'.fs = (if out.path = p then ex.buildEffect w.fs
                   else renameFile (ex.buildEffect w.fs) out.path p)) := by
  unfold runBuild readManifest at h
  dsimp only at h
  cases hmf : FS.lookupFile w.fs (path ++ "/lzc-manifest.yml") with
  | none => rw [hmf] at h; exact absurd h (by simp)
  | some mf =>
    rw [hmf] at h
    dsimp only at h
    cases hum : ex.unmarshalManifest mf.content with
    | error msg => rw [hum] at h; exact absurd h (by simp)
    | ok manifest =>
      rw [hum] at h
      dsimp only at h
      by_cases hn : manifest.Name = ""
      · rw [if_pos hn] at h; exact absurd h (by simp)
      rw [if_neg hn] at h
      by_cases hv : manifest.Version = ""
      · rw [if_pos hv] at h; exact absurd h (by simp)
      rw [if_neg hv] at h
      have hsha : computeSHA ex w.fs (path ++ "/lzc-manifest.yml") = .ok (ex.hash mf.content) := by
        unfold computeSHA; rw [hmf]
      rw [hsha] at h
      dsimp only at h
      set ab := manifest.Name ++ "-" ++ manifest.Version ++ "-" ++ ex.hash mf.content with hab
      set ap := path ++ "/" ++ ab ++ ".lpk" with hap
      by_cases hc : (FS.lookupFile w.fs ap).isSome = true
      · rw [if_pos hc] at h
        obtain ⟨hw, hp, f, hf, hmeta⟩ := finishBuild_ok h
        subst hp
        subst hw
        refine ⟨mf, manifest, rfl, hum, hn, hv, rfl, ⟨f, hf, hmeta⟩, fun _ => rfl, fun hcon => ?_⟩
        simp [hc] at hcon
      · rw [if_neg hc] at h
        by_cases hb : ex.buildOk = false
        · rw [if_pos hb] at h; exact absurd h (by simp)
        rw [if_neg hb] at h
        cases hfl : findLatestLPK (ex.buildEffect w.fs) path with
        | error e => rw [hfl] at h; exact absurd h (by simp)
        | ok out =>
          rw [hfl] at h
          obtain ⟨hw, hp, f, hf, hmeta⟩ := finishBuild_ok h
          subst hp
          refine ⟨mf, manifest, rfl, hum, hn, hv, rfl, ⟨f, ?_, hmeta⟩, fun hcon => ?_, fun _ => ?_⟩
          · rw [hw]; exact hf
          · exact absurd hcon hc
          · refine ⟨by simpa using hb, ?_, out, rfl, ?_⟩
            · rw [hw]
              by_cases ho : out.path = ap <;> simp [ho]
            · rw [hw]
              by_cases ho : out.path = ap <;> simp [ho]

/-- Forward evaluation of `runBuild` on a cache hit: when the manifest reads
and parses cleanly and a file already exists at the canonical artifact path,
the build command is skipped and the world is returned unchanged. -/
theorem runBuild_cache_hit {ex : Externals} {w : World} {path : String}
    {build : Option LPKBuildBuildModel} {pub : Option LPKBuildPublishModel}
    {envVars : List (String × String)} {mf f : FSFile} {manifest : ManifestYAML}
    (hmf : FS.lookupFile w.fs (path ++ "/lzc-manifest.yml") = some mf)
    (hum : ex.unmarshalManifest mf.content = .ok manifest)
    (hn : manifest.Name ≠ "") (hv : manifest.Version ≠ "")
    (hf : FS.lookupFile w.fs
      (path ++ "/" ++ (manifest.Name ++ "-" ++ manifest.Version ++ "-" ++ ex.hash mf.content) ++ ".lpk") = some f) :
    runBuild ex w path build pub envVars =
      (.ok (path ++ "/" ++ (manifest.Name ++ "-" ++ manifest.Version ++ "-" ++ ex.hash mf.content) ++ ".lpk",
        { AppID := manifest.AppID,
          Version := overrideVersion pub manifest.Version,
          SHA256 := ex.hash f.content,
          Name := overrideName pub (manifest.Name ++ "-" ++ manifest.Version ++ "-" ++ ex.hash mf.content) }), w) := by
  have hsha : computeSHA ex w.fs (path ++ "/lzc-manifest.yml") = .ok (ex.hash mf.content) := by
    unfold computeSHA; rw [hmf]
  unfold runBuild readManifest
  dsimp only
  rw [hmf]
  dsimp only
  rw [hum]
  dsimp only
  rw [if_neg hn, if_neg hv, hsha]
  dsimp only
  rw [if_pos (by rw [hf]; rfl)]
  unfold finishBuild computeSHA
  rw [hf]

/-! ## C2 -/

/-- C2: for every successful build step, the returned artifact path is
`{workdir}/{name}-{version}-{manifestHash}.lpk` where the manifest hash is
the content hash of the raw manifest file bytes, and the external build
command is invoked exactly when no file exists at that path at the start of
the call. -/
theorem C2_canonical_artifact_path (ex : Externals) (w : World) (path : String)
    (build : Option LPKBuildBuildModel) (pub : Option LPKBuildPublishModel)
    (envVars : List (String × String)) (p : String) (meta : lpkMetadata) (w' : World)
    (htr : w.trace = [])
    (h : runBuild ex w path build pub envVars = (.ok (p, meta), w')) :
    ∃ mf manifest,
      FS.lookupFile w.fs (path ++ "/lzc-manifest.yml") = some mf ∧
      ex.unmarshalManifest mf.content = .ok manifest ∧
      p = path ++ "/" ++ (manifest.Name ++ "-" ++ manifest.Version ++ "-" ++ ex.hash mf.content) ++ ".lpk" ∧
      countBuildInvokes w'.trace =
        (if (FS.lookupFile w.fs p).isSome = true then 0 else 1) := by
  obtain ⟨mf, manifest, hmf, hum, hn, hv, hp, hex, hsome, hnone⟩ := runBuild_ok h
  refine ⟨mf, manifest, hmf, hum, hp, ?_⟩
  by_cases hc : (FS.lookupFile w.fs p).isSome = true
  · rw [if_pos hc, hsome hc, htr]
    rfl
  · have hc' : (FS.lookupFile w.fs p).isSome = false := by simpa using hc
    obtain ⟨_, htr', _⟩ := hnone hc'
    rw [if_neg hc, htr', htr]
    rfl

/-- A concrete externals instance used by the closed witnesses. -/
def exW : Externals := {
  hash := fun s => "h" ++ toString s.length
  unmarshalManifest := fun s =>
    if s = "manifest" then .ok ⟨"a1", "1.0.0", "app"⟩ else .error "yaml: parse error"
  procEnviron := ["PATH=/bin"]
  tmpName := "/tmp/lpk-build-1"
  mkdirOk := true
  cloneOk := true
  cloneEffect := fun fs => fs
  checkoutOk := true
  checkoutEffect := fun fs => fs
  buildOk := true
  buildEffect := fun fs => fs ++ [⟨"/w/out.lpk", "ART", 10⟩]
  user := "u"
  upload := fun _ _ _ _ => .ok ⟨"id1", "http://registry/d/1", "regsha", "2.0.0"⟩ }

/-- A concrete starting world used by the closed witnesses. -/
def wW : World := ⟨[⟨"/w/lzc-manifest.yml", "manifest", 1⟩], []⟩

/-- Closed instantiation of `C2_canonical_artifact_path`. -/
theorem C2_canonical_artifact_path_witness :
    ∃ mf manifest,
      FS.lookupFile wW.fs ("/w" ++ "/lzc-manifest.yml") = some mf ∧
      exW.unmarshalManifest mf.content = .ok manifest ∧
      "/w/app-1.0.0-h8.lpk" =
        "/w" ++ "/" ++ (manifest.Name ++ "-" ++ manifest.Version ++ "-" ++ exW.hash mf.content) ++ ".lpk" ∧
      countBuildInvokes (runBuild exW wW "/w" none none []).2.trace =
        (if (FS.lookupFile wW.fs "/w/app-1.0.0-h8.lpk").isSome = true then 0 else 1) :=
  C2_canonical_artifact_path exW wW "/w" none none [] "/w/app-1.0.0-h8.lpk"
    ⟨"a1", "1.0.0", "h3", "app-1.0.0-h8"⟩ (runBuild exW wW "/w" none none []).2
    rfl (by decide)

/-! ## C1 -/

/-- C1: after a successful build step, if the manifest file's content is
unchanged, a second identical call hits the on-disk cache: it returns the
same artifact path, appID, version and content hash, leaves the world (and
hence the trace) untouched, and the external build command has been invoked
at most once in total across both calls. -/
theorem C1_build_idempotent (ex : Externals) (w0 : World) (path : String)
    (build : Option LPKBuildBuildModel) (pub : Option LPKBuildPublishModel)
    (envVars : List (String × String)) (p1 : String) (m1 : lpkMetadata) (w1 : World)
    (htr : w0.trace = [])
    (h1 : runBuild ex w0 path build pub envVars = (.ok (p1, m1), w1))
    (hm : (FS.lookupFile w1.fs (path ++ "/lzc-manifest.yml")).map (fun f => f.content) =
          (FS.lookupFile w0.fs (path ++ "/lzc-manifest.yml")).map (fun f => f.content)) :
    runBuild ex w1 path build pub envVars = (.ok (p1, m1), w1) ∧
      countBuildInvokes w1.trace ≤ 1 := by
  obtain ⟨mf, manifest, hmf, hum, hn, hv, hp, ⟨f, hf, hmeta⟩, hsome, hnone⟩ := runBuild_ok h1
  rw [hmf] at hm
  cases hmf1 : FS.lookupFile w1.fs (path ++ "/lzc-manifest.yml") with
  | none => rw [hmf1] at hm; exact absurd hm (by simp)
  | some mf1 =>
    rw [hmf1] at hm
    have hcnt : mf1.content = mf.content := by simpa using hm
    have hum1 : ex.unmarshalManifest mf1.content = .ok manifest := by rw [hcnt]; exact hum
    have hf1 : FS.lookupFile w1.fs
        (path ++ "/" ++ (manifest.Name ++ "-" ++ manifest.Version ++ "-" ++ ex.hash mf1.content) ++ ".lpk") = some f := by
      rw [hcnt, ← hp]; exact hf
    have hrun2 := @runBuild_cache_hit ex w1 path build pub envVars mf1 f manifest
      hmf1 hum1 hn hv hf1
    constructor
    · rw [hrun2, hcnt, ← hp, ← hmeta]
    · by_cases hc : (FS.lookupFile w0.fs p1).isSome = true
      · rw [hsome hc, htr]
        simp [countBuildInvokes]
      · have hc' : (FS.lookupFile w0.fs p1).isSome = false := by simpa using hc
        obtain ⟨_, htr', _⟩ := hnone hc'
        rw [htr', htr]
        simp [countBuildInvokes, Event.isBuildInvoke]

/-- Closed instantiation of `C1_build_idempotent`. -/
theorem C1_build_idempotent_witness :
    runBuild exW (runBuild exW wW "/w" none none []).2 "/w" none none [] =
      (.ok ("/w/app-1.0.0-h8.lpk", ⟨"a1", "1.0.0", "h3", "app-1.0.0-h8"⟩),
        (runBuild exW wW "/w" none none []).2) ∧
    countBuildInvokes (runBuild exW wW "/w" none none []).2.trace ≤ 1 :=
  C1_build_idempotent exW wW "/w" none none [] "/w/app-1.0.0-h8.lpk"
    ⟨"a1", "1.0.0", "h3", "app-1.0.0-h8"⟩ (runBuild exW wW "/w" none none []).2
    rfl (by decide) (by decide)

/-! ## C6 -/

instance mtimeDescIsTotal : IsTotal FSFile (fun a b => b.mtime ≤ a.mtime) :=
  ⟨fun a b => Nat.le_total b.mtime a.mtime⟩

instance mtimeDescIsTrans : IsTrans FSFile (fun a b => b.mtime ≤ a.mtime) :=
  ⟨fun _ _ _ hab hbc => Nat.le_trans hbc hab⟩

/-- C6 counterexample: the artifact glob is `dir/*.lpk`, which is not
recursive.  A `.lpk` file that exists somewhere in the working directory but
in a subdirectory is not collected: the builder reports
"no .lpk artifact produced" even though such a file exists. -/
theorem C6_counterexample :
    findLatestLPK [⟨"/w/sub/a.lpk", "x", 5⟩] "/w" =
      .error (.simple "no .lpk artifact produced") ∧
    ∃ f ∈ ([⟨"/w/sub/a.lpk", "x", 5⟩] : FS),
      underDir "/w" f.path = true ∧ strEndsWith f.path ".lpk" = true := by
  refine ⟨by decide, ⟨"/w/sub/a.lpk", "x", 5⟩, by simp, by decide, by decide⟩

/-- C6 (amended: the glob collects `.lpk` files that are direct children of
the working directory, not arbitrarily deep ones): a successful selection
returns a direct-child `.lpk` file of maximal modification time; the
no-artifact error occurs exactly when no direct-child `.lpk` file exists;
and after an invoked build, the selected file is renamed to the canonical
artifact path when its path differs. -/
theorem C6_artifact_selection :
    (∀ (fs : FS) (dir : String) (f : FSFile), findLatestLPK fs dir = .ok f →
        f ∈ fs ∧ isDirectChild dir f.path = true ∧ strEndsWith f.path ".lpk" = true ∧
        ∀ g ∈ fs, isDirectChild dir g.path = true → strEndsWith g.path ".lpk" = true →
          g.mtime ≤ f.mtime) ∧
    (∀ (fs : FS) (dir : String),
        findLatestLPK fs dir = .error (.simple "no .lpk artifact produced") ↔
        ∀ g ∈ fs, ¬(isDirectChild dir g.path = true ∧ strEndsWith g.path ".lpk" = true)) ∧
    (∀ (ex : Externals) (w : World) (path : String) (build : Option LPKBuildBuildModel)
        (pub : Option LPKBuildPublishModel) (envVars : List (String × String))
        (p : String) (meta : lpkMetadata) (w' : World),
        runBuild ex w path build pub envVars = (.ok (p, meta), w') →
        (FS.lookupFile w.fs p).isSome = false →
        ∃ out, findLatestLPK (ex.buildEffect w.fs) path = .ok out ∧
          w'.fs = (if out.path = p then ex.buildEffect w.fs
                   else renameFile (ex.buildEffect w.fs) out.path p)) := by
  refine ⟨?_, ?_, ?_⟩
  · intro fs dir f h
    unfold findLatestLPK at h
    by_cases he : (globLPK fs dir).isEmpty = true
    · rw [if_pos he] at h; exact absurd h (by simp)
    rw [if_neg he] at h
    cases hsrt : List.insertionSort (fun a b => b.mtime ≤ a.mtime) (globLPK fs dir) with
    | nil => rw [hsrt] at h; exact absurd h (by simp)
    | cons x rest =>
      rw [hsrt] at h
      have hfx : f = x := by simpa using h.symm
      subst hfx
      have hperm := List.perm_insertionSort (fun a b => b.mtime ≤ a.mtime) (globLPK fs dir)
      rw [hsrt] at hperm
      have hmem : f ∈ globLPK fs dir := hperm.mem_iff.mp (by simp)
      have hmem' := List.mem_filter.mp hmem
      have hpred := hmem'.2
      rw [Bool.and_eq_true] at hpred
      refine ⟨hmem'.1, hpred.1, hpred.2, ?_⟩
      intro g hg hg1 hg2
      have hgm : g ∈ globLPK fs dir :=
        List.mem_filter.mpr ⟨hg, by rw [Bool.and_eq_true]; exact ⟨hg1, hg2⟩⟩
      have hgs : g ∈ f :: rest := (hperm.symm.mem_iff).mp hgm
      have hsorted := List.sorted_insertionSort (fun a b => b.mtime ≤ a.mtime) (globLPK fs dir)
      rw [hsrt] at hsorted
      rcases List.mem_cons.mp hgs with hgx | hgr
      · exact Nat.le_of_eq (congrArg FSFile.mtime hgx)
      · exact (List.sorted_cons.mp hsorted).1 g hgr
  · intro fs dir
    constructor
    · intro h g hg hpg
      unfold findLatestLPK at h
      by_cases he : (globLPK fs dir).isEmpty = true
      · have : globLPK fs dir = [] := List.isEmpty_iff.mp he
        have : g ∈ ([] : List FSFile) := by
          rw [← this]
          exact List.mem_filter.mpr ⟨hg, by rw [Bool.and_eq_true]; exact hpg⟩
        simp at this
      · rw [if_neg he] at h
        cases hsrt : List.insertionSort (fun a b => b.mtime ≤ a.mtime) (globLPK fs dir) with
        | nil =>
          have hperm := List.perm_insertionSort (fun a b => b.mtime ≤ a.mtime) (globLPK fs dir)
          rw [hsrt] at hperm
          have : globLPK fs dir = [] := hperm.symm.eq_nil
          rw [this] at he
          simp at he
        | cons x rest => rw [hsrt] at h; exact absurd h (by simp)
    · intro h
      have hnil : globLPK fs dir = [] := by
        unfold globLPK
        rw [List.filter_eq_nil_iff]
        intro g hg
        rw [Bool.and_eq_true]
        intro hc
        exact h g hg ⟨hc.1, hc.2⟩
      unfold findLatestLPK
      rw [hnil]
      rfl
  · intro ex w path build pub envVars p meta w' h hc
    obtain ⟨_, _, _, _, _, _, _, _, _, hnone⟩ := runBuild_ok h
    obtain ⟨_, _, out, hfl, hfs⟩ := hnone hc
    exact ⟨out, hfl, hfs⟩

/-- Closed instantiation of `C6_artifact_selection`. -/
theorem C6_artifact_selection_witness :
    (⟨"/w/b.lpk", "y", 9⟩ : FSFile) ∈ ([⟨"/w/a.lpk", "x", 5⟩, ⟨"/w/b.lpk", "y", 9⟩] : FS) ∧
    isDirectChild "/w" "/w/b.lpk" = true ∧ strEndsWith "/w/b.lpk" ".lpk" = true ∧
    ∀ g ∈ ([⟨"/w/a.lpk", "x", 5⟩, ⟨"/w/b.lpk", "y", 9⟩] : FS),
      isDirectChild "/w" g.path = true → strEndsWith g.path ".lpk" = true →
        g.mtime ≤ (9 : Nat) :=
  C6_artifact_selection.1 [⟨"/w/a.lpk", "x", 5⟩, ⟨"/w/b.lpk", "y", 9⟩] "/w"
    ⟨"/w/b.lpk", "y", 9⟩ (by decide)

/-! ## C5 -/

/-- C5: a source descriptor with both variants populated, or with neither
populated, is rejected by config validation (the declared `AtLeastOneOf` /
`Conflicting` validators) before the pipeline performs any filesystem or
network I/O: the world is returned completely untouched. -/
theorem C5_descriptor_validation (ex : Externals) (data : LPKBuildModel)
    (prior : Option LPKBuildModel) (w : World) (src : LPKBuildSourceModel)
    (hsrc : data.Source = some src)
    (hbad : (src.Local.isSome = true ∧ src.Git.isSome = true) ∨
            (src.Local = none ∧ src.Git = none)) :
    ∃ e, pipelineApply ex data prior w = (.error e, w) := by
  unfold pipelineApply validateSourceConfig
  rw [hsrc]
  rcases hbad with ⟨hl, hg⟩ | ⟨hl, hg⟩
  · refine ⟨.simple "These attributes cannot be configured together: [source.local, source.git]", ?_⟩
    simp [hl, hg]
  · refine ⟨.simple "At least one attribute out of [source.local, source.git] must be specified", ?_⟩
    simp [hl, hg]

/-- Closed instantiation of `C5_descriptor_validation` (both populated, and
neither populated). -/
theorem C5_descriptor_validation_witness :
    (∃ e, pipelineApply exW
      { ID := .null,
        Source := some ⟨some ⟨.strVal "/w"⟩, some ⟨.strVal "u", .null, .null⟩⟩,
        Build := none, Publish := none, Env := none, LPKURL := .null,
        SHA256 := .null, AppID := .null, Version := .null, LocalPath := .null,
        UploadID := .null } none wW = (.error e, wW)) ∧
    (∃ e, pipelineApply exW
      { ID := .null, Source := some ⟨none, none⟩,
        Build := none, Publish := none, Env := none, LPKURL := .null,
        SHA256 := .null, AppID := .null, Version := .null, LocalPath := .null,
        UploadID := .null } none wW = (.error e, wW)) :=
  ⟨C5_descriptor_validation exW _ none wW ⟨some ⟨.strVal "/w"⟩, some ⟨.strVal "u", .null, .null⟩⟩
      rfl (.inl ⟨rfl, rfl⟩),
   C5_descriptor_validation exW _ none wW ⟨none, none⟩ rfl (.inr ⟨rfl, rfl⟩)⟩

/-! ## C4 -/

/-- The expected substitution of a parsed template against the variable map
(spec-side definition of the rendered content). -/
def substitution (parts : List TmplPart) (vars : List (String × String)) : String :=
  parts.foldl
    (fun acc part =>
      match part with
      | .lit t => acc ++ t
      | .fieldRef k => acc ++ ((alook vars k).getD "")) ""

theorem executeParts_step_error (name : String) (vars : List (String × String)) :
    ∀ (parts : List TmplPart) (e : GoError),
      parts.foldl
        (fun acc part =>
          match acc with
          | Except.error err => Except.error err
          | Except.ok s =>
            match part with
            | TmplPart.lit t => Except.ok (s ++ t)
            | TmplPart.fieldRef k =>
              match alook vars k with
              | some v => Except.ok (s ++ v)
              | none => Except.error (.execError name (.simple (execMsg name k))))
        (Except.error e : Except GoError String) = Except.error e := by
  intro parts
  induction parts with
  | nil => intro e; rfl
  | cons part rest ih => intro e; simp only [List.foldl_cons]; exact ih e

theorem executeParts_all_present (name : String) (vars : List (String × String)) :
    ∀ (parts : List TmplPart) (s : String),
      (∀ k, TmplPart.fieldRef k ∈ parts → (alook vars k).isSome = true) →
      parts.foldl
        (fun acc part =>
          match acc with
          | Except.error err => Except.error err
          | Except.ok s =>
            match part with
            | TmplPart.lit t => Except.ok (s ++ t)
            | TmplPart.fieldRef k =>
              match alook vars k with
              | some v => Except.ok (s ++ v)
              | none => Except.error (.execError name (.simple (execMsg name k))))
        (Except.ok s : Except GoError String) =
      Except.ok (parts.foldl
        (fun acc part =>
          match part with
          | .lit t => acc ++ t
          | .fieldRef k => acc ++ ((alook vars k).getD "")) s) := by
  intro parts
  induction parts with
  | nil => intro s _; rfl
  | cons part rest ih =>
    intro s hall
    cases part with
    | lit t =>
      simp only [List.foldl_cons]
      exact ih (s ++ t) (fun k hk => hall k (by simp [hk]))
    | fieldRef k =>
      obtain ⟨v, hv⟩ := Option.isSome_iff_exists.mp (hall k (by simp))
      simp only [List.foldl_cons, hv]
      exact ih (s ++ v) (fun k' hk' => hall k' (by simp [hk']))

theorem executeParts_missing_key (name : String) (vars : List (String × String))
    (k : String) (hk : alook vars k = none) :
    ∀ (parts : List TmplPart) (s : String),
      TmplPart.fieldRef k ∈ parts →
      (∀ k', TmplPart.fieldRef k' ∈ parts → k' ≠ k → (alook vars k').isSome = true) →
      parts.foldl
        (fun acc part =>
          match acc with
          | Except.error err => Except.error err
          | Except.ok s =>
            match part with
            | TmplPart.lit t => Except.ok (s ++ t)
            | TmplPart.fieldRef k =>
              match alook vars k with
              | some v => Except.ok (s ++ v)
              | none => Except.error (.execError name (.simple (execMsg name k))))
        (Except.ok s : Except GoError String) =
          Except.error (.execError name (.simple (execMsg name k))) := by
  intro parts
  induction parts with
  | nil => intro s hmem; simp at hmem
  | cons part rest ih =>
    intro s hmem hothers
    cases part with
    | lit t =>
      simp only [List.foldl_cons]
      have hmem' : TmplPart.fieldRef k ∈ rest := by
        rcases List.mem_cons.mp hmem with hcon | h
        · exact absurd hcon (by simp)
        · exact h
      exact ih (s ++ t) hmem' (fun k' hk' hne => hothers k' (by simp [hk']) hne)
    | fieldRef k' =>
      by_cases hkk : k' = k
      · subst hkk
        simp only [List.foldl_cons, hk]
        exact executeParts_step_error name vars rest _
      · obtain ⟨v, hv⟩ := Option.isSome_iff_exists.mp (hothers k' (by simp) hkk)
        have hmem' : TmplPart.fieldRef k ∈ rest := by
          rcases List.mem_cons.mp hmem with hcon | h
          · exact absurd (by simpa using hcon) (Ne.symm hkk)
          · exact h
        simp only [List.foldl_cons, hv]
        exact ih (s ++ v) hmem' (fun k'' hk'' hne => hothers k'' (by simp [hk'']) hne)

theorem marker_not_on_template_msg (r : String) :
    strStartsWith ("template: " ++ r) missingKeyMarker = false := by
  have h1 : ("template: " ++ r).data = 't' :: ("emplate: ".data ++ r.data) := by
    rw [String.data_append]; rfl
  have h2 : missingKeyMarker.data = 'm' :: "ap has no entry for key ".data := rfl
  rw [strStartsWith, h1, h2]
  simp [List.isPrefixOf]

theorem extractMissingKey_execMsg (n k : String) :
    extractMissingKey (execMsg n k) = "" := by
  have : execMsg n k =
      "template: " ++ (n ++ ": executing \"" ++ n ++ "\" at <." ++ k ++
        ">: map has no entry for key \"" ++ k ++ "\"") := by
    simp [execMsg, String.append_assoc]
  rw [extractMissingKey, this, marker_not_on_template_msg]
  simp

theorem formatTemplateError_execMsg (n k : String) :
    formatTemplateError (.execError n (.simple (execMsg n k))) =
      .simple (execMsg n k) := by
  unfold formatTemplateError
  simp [GoError.message, extractMissingKey_execMsg]

theorem key_infix_execMsg (pre n k : String) :
    k.data <:+: (pre ++ execMsg n k).data := by
  refine ⟨pre.data ++ "template: ".data ++ n.data ++ ": executing \"".data ++ n.data ++
    "\" at <.".data, ">: map has no entry for key \"".data ++ k.data ++ "\"".data, ?_⟩
  simp [execMsg, String.data_append, List.append_assoc]

theorem lookupFile_writeFile_self (fs : FS) (p c : String) (m : Nat) :
    FS.lookupFile (FS.writeFile fs p c m) p = some ⟨p, c, m⟩ := by
  unfold FS.writeFile FS.lookupFile
  induction fs with
  | nil => simp [List.find?]
  | cons f rest ih =>
    by_cases hf : f.path = p
    · simpa [List.filter_cons, hf] using ih
    · simp only [List.filter_cons, decide_eq_true_eq]
      rw [if_pos hf, List.cons_append, List.find?_cons_of_neg _ (by simpa using hf)]
      exact ih

/-- C4: rendering a template file that references a variable key absent from
the supplied mapping fails — no silent blank substitution — with an error
whose message names the undefined key; with the key present, rendering
succeeds and writes the substituted content to the sibling path obtained by
stripping the extension suffix. -/
theorem C4_template_strictness :
    (∀ (fs : FS) (path extension : String) (f : FSFile) (parts : List TmplPart)
        (vars : List (String × String)) (k : String),
        FS.lookupFile fs path = some f →
        parseParts f.content.data.length f.content.data = .ok parts →
        TmplPart.fieldRef k ∈ parts →
        alook vars k = none →
        (∀ k', TmplPart.fieldRef k' ∈ parts → k' ≠ k → (alook vars k').isSome = true) →
        ∃ e, renderTemplateFile fs path extension vars = .error e ∧
          k.data <:+: e.message.data) ∧
    (∀ (fs : FS) (path extension : String) (f : FSFile) (parts : List TmplPart)
        (vars : List (String × String)),
        FS.lookupFile fs path = some f →
        parseParts f.content.data.length f.content.data = .ok parts →
        (∀ k', TmplPart.fieldRef k' ∈ parts → (alook vars k').isSome = true) →
        renderTemplateFile fs path extension vars =
          .ok (FS.writeFile fs (trimSuffixStr path extension) (substitution parts vars) f.mtime) ∧
        FS.lookupFile (FS.writeFile fs (trimSuffixStr path extension)
            (substitution parts vars) f.mtime) (trimSuffixStr path extension) =
          some ⟨trimSuffixStr path extension, substitution parts vars, f.mtime⟩) := by
  constructor
  · intro fs path extension f parts vars k hl hp hmem hnone hothers
    have hexec : executeParts (baseName path) parts vars =
        .error (.execError (baseName path) (.simple (execMsg (baseName path) k))) := by
      unfold executeParts
      exact executeParts_missing_key (baseName path) vars k hnone parts "" hmem hothers
    refine ⟨.wrapped ("render template " ++ path ++ ": ")
      (.simple (execMsg (baseName path) k)), ?_, ?_⟩
    · unfold renderTemplateFile
      rw [hl]
      dsimp only
      rw [hp]
      dsimp only
      rw [hexec]
      dsimp only
      rw [formatTemplateError_execMsg]
    · simpa [GoError.message] using
        key_infix_execMsg ("render template " ++ path ++ ": ") (baseName path) k
  · intro fs path extension f parts vars hl hp hall
    have hexec : executeParts (baseName path) parts vars = .ok (substitution parts vars) := by
      unfold executeParts substitution
      exact executeParts_all_present (baseName path) vars parts "" hall
    constructor
    · unfold renderTemplateFile
      rw [hl]
      dsimp only
      rw [hp]
      dsimp only
      rw [hexec]
    · exact lookupFile_writeFile_self fs (trimSuffixStr path extension)
        (substitution parts vars) f.mtime

/-- Closed instantiation of `C4_template_strictness`: a template
`a={{.K}}b` rendered without `K` fails with an error naming `K`; rendered
with `K = v` it writes `a=vb` to the extension-stripped sibling. -/
theorem C4_template_strictness_witness :
    (∃ e, renderTemplateFile [⟨"/w/c.yaml.tmpl", "a=\x7b\x7b.K\x7d\x7db", 1⟩]
        "/w/c.yaml.tmpl" ".tmpl" [] = .error e ∧
      ("K" : String).data <:+: e.message.data) ∧
    renderTemplateFile [⟨"/w/c.yaml.tmpl", "a=\x7b\x7b.K\x7d\x7db", 1⟩]
        "/w/c.yaml.tmpl" ".tmpl" [("K", "v")] =
      .ok (FS.writeFile [⟨"/w/c.yaml.tmpl", "a=\x7b\x7b.K\x7d\x7db", 1⟩]
        (trimSuffixStr "/w/c.yaml.tmpl" ".tmpl")
        (substitution [.lit "a", .lit "=", .fieldRef "K", .lit "b"] [("K", "v")]) 1) :=
  ⟨C4_template_strictness.1 [⟨"/w/c.yaml.tmpl", "a=\x7b\x7b.K\x7d\x7db", 1⟩]
      "/w/c.yaml.tmpl" ".tmpl" ⟨"/w/c.yaml.tmpl", "a=\x7b\x7b.K\x7d\x7db", 1⟩
      [.lit "a", .lit "=", .fieldRef "K", .lit "b"] [] "K"
      (by decide) (by decide) (by decide) rfl
      (by intro k' hk' hne; simp at hk'; exact absurd hk' hne),
   (C4_template_strictness.2 [⟨"/w/c.yaml.tmpl", "a=\x7b\x7b.K\x7d\x7db", 1⟩]
      "/w/c.yaml.tmpl" ".tmpl" ⟨"/w/c.yaml.tmpl", "a=\x7b\x7b.K\x7d\x7db", 1⟩
      [.lit "a", .lit "=", .fieldRef "K", .lit "b"] [("K", "v")]
      (by decide) (by decide)
      (by intro k' hk'; simp at hk'; subst hk'; rfl)).1⟩

/-! ## C8 -/

theorem alook_append (a b : List (String × String)) (k : String) :
    alook (a ++ b) k =
      (match alook a k with
       | some v => some v
       | none => alook b k) := by
  induction a with
  | nil => rfl
  | cons kv rest ih =>
    obtain ⟨k1, v1⟩ := kv
    simp only [List.cons_append, alook]
    by_cases hk : (k1 == k) = true
    · simp [hk]
    · simp only [hk, Bool.false_eq_true, if_false]
      exact ih

theorem alook_filter_ne (m : List (String × String)) (k k' : String) :
    alook (m.filter (fun p => p.1 ≠ k)) k' =
      (if k' = k then none else alook m k') := by
  induction m with
  | nil => simp [alook]
  | cons kv rest ih =>
    obtain ⟨k1, v1⟩ := kv
    by_cases h1 : k1 = k
    · subst h1
      rw [List.filter_cons, if_neg (by simp)]
      rw [ih]
      by_cases h2 : k' = k1
      · simp [h2]
      · simp only [if_neg h2, alook]
        rw [if_neg (by simpa using Ne.symm h2)]
    · rw [List.filter_cons, if_pos (by simpa using h1)]
      by_cases h2 : k1 = k'
      · subst h2
        rw [if_neg h1]
        simp [alook]
      · simp only [alook]
        rw [if_neg (by simpa using h2), ih]
        by_cases h3 : k' = k
        · simp [h3]
        · rw [if_neg h3, if_neg h3, if_neg (by simpa using h2)]

theorem alook_mapPut (m : List (String × String)) (k v k' : String) :
    alook (mapPut m k v) k' = (if k' = k then some v else alook m k') := by
  unfold mapPut
  rw [alook_append, alook_filter_ne]
  by_cases h : k' = k
  · simp [h, alook]
  · simp only [if_neg h]
    cases alook m k' <;> simp [alook, h, Ne.symm h]

theorem alook_foldl_mapPut (l : List (String × String)) (base : List (String × String))
    (k : String) :
    alook (l.foldl (fun m kv => mapPut m kv.1 kv.2) base) k =
      (match alook l.reverse k with
       | some v => some v
       | none => alook base k) := by
  induction l generalizing base with
  | nil => simp [alook]
  | cons kv rest ih =>
    simp only [List.foldl_cons, List.reverse_cons]
    rw [ih, alook_append]
    cases alook rest.reverse k with
    | some v => rfl
    | none =>
      simp only []
      rw [alook_mapPut]
      obtain ⟨k1, v1⟩ := kv
      by_cases h : k = k1
      · simp [alook, h]
      · simp only [alook, if_neg h]
        rw [if_neg (by simpa using Ne.symm h)]

theorem alook_eq_none_of_not_mem (l : List (String × String)) (k : String)
    (h : k ∉ l.map Prod.fst) : alook l k = none := by
  induction l with
  | nil => rfl
  | cons kv rest ih =>
    obtain ⟨k1, v1⟩ := kv
    simp only [List.map_cons, List.mem_cons] at h
    push_neg at h
    simp only [alook]
    rw [if_neg (by simpa using Ne.symm h.1)]
    exact ih h.2

theorem alook_isSome_iff (l : List (String × String)) (k : String) :
    (alook l k).isSome = true ↔ k ∈ l.map Prod.fst := by
  induction l with
  | nil => simp [alook]
  | cons kv rest ih =>
    obtain ⟨k1, v1⟩ := kv
    simp only [alook, List.map_cons, List.mem_cons]
    by_cases h : (k1 == k) = true
    · simp [h, (by simpa using h : k1 = k).symm]
    · rw [if_neg h]
      simp only [ih]
      constructor
      · intro hm; exact Or.inr hm
      · intro hm
        rcases hm with hm | hm
        · exact absurd (by simpa using hm.symm) h
        · exact hm

theorem alook_reverse_nodup (l : List (String × String))
    (hn : (l.map Prod.fst).Nodup) (k : String) :
    alook l.reverse k = alook l k := by
  induction l with
  | nil => rfl
  | cons kv rest ih =>
    obtain ⟨k1, v1⟩ := kv
    simp only [List.map_cons, List.nodup_cons] at hn
    rw [List.reverse_cons, alook_append]
    by_cases h : k1 = k
    · subst h
      have : alook rest k1 = none :=
        alook_eq_none_of_not_mem rest k1 hn.1
      rw [ih hn.2, this]
      simp [alook]
    · rw [ih hn.2]
      cases hr : alook rest k with
      | some v =>
        dsimp only
        simp only [alook]
        rw [if_neg (by simpa using h), hr]
      | none =>
        dsimp only
        simp only [alook]
        rw [if_neg (by simpa using h), if_neg (by simpa using h), hr]

theorem mapPut_keys_nodup (m : List (String × String)) (k v : String)
    (h : (m.map Prod.fst).Nodup) : ((mapPut m k v).map Prod.fst).Nodup := by
  unfold mapPut
  rw [List.map_append, List.nodup_append]
  refine ⟨?_, by simp, ?_⟩
  · exact h.sublist ((List.filter_sublist m).map Prod.fst)
  · intro a ha
    simp only [List.mem_map] at ha
    obtain ⟨p, hp, hpa⟩ := ha
    have := List.of_mem_filter hp
    simp only [decide_eq_true_eq] at this
    simp only [List.map_cons, List.map_nil, List.mem_cons]
    intro hak
    rcases hak with hak | hak
    · exact this (by rw [hpa, hak])
    · simp at hak

theorem foldl_mapPut_keys_nodup (l : List (String × String)) :
    ∀ (base : List (String × String)), (base.map Prod.fst).Nodup →
      (((l.foldl (fun m kv => mapPut m kv.1 kv.2) base)).map Prod.fst).Nodup := by
  induction l with
  | nil => intro base h; exact h
  | cons kv rest ih =>
    intro base h
    simp only [List.foldl_cons]
    exact ih _ (mapPut_keys_nodup base kv.1 kv.2 h)

theorem envbase_eq_filterMap (l : List String) :
    ∀ (base : List (String × String)),
      l.foldl
        (fun m pair =>
          match parsePair pair with
          | some kv => mapPut m kv.1 kv.2
          | none => m) base =
      (l.filterMap parsePair).foldl (fun m kv => mapPut m kv.1 kv.2) base := by
  induction l with
  | nil => intro base; rfl
  | cons p rest ih =>
    intro base
    simp only [List.foldl_cons, List.filterMap_cons]
    cases parsePair p with
    | none => exact ih base
    | some kv => simp only [List.foldl_cons]; exact ih _

/-- The overlay the spec describes: the supplied variable if present,
otherwise the parsed inherited process environment entry. -/
def mergedValue (procEnviron : List String) (custom : List (String × String))
    (k : String) : Option String :=
  match alook custom k with
  | some v => some v
  | none => alook (procEnviron.filterMap parsePair) k

/-- C8: for a non-empty supplied variable mapping, the serialized environment
handed to the external build command is exactly one `KEY=VALUE` entry per
key of the overlay of the supplied variables over the parsed inherited
environment (supplied values win), with the key list sorted ascending and
duplicate-free; and `runBuild` records precisely this environment on the
build-command invocation. -/
theorem C8_command_environment :
    (∀ (procEnviron : List String) (custom : List (String × String)),
        custom ≠ [] →
        (custom.map Prod.fst).Nodup →
        ((procEnviron.filterMap parsePair).map Prod.fst).Nodup →
        ∃ ks : List String,
          commandEnvironment procEnviron custom =
            ks.map (fun k => k ++ "=" ++ ((mergedValue procEnviron custom k).getD "")) ∧
          List.Sorted (fun a b => a ≤ b) ks ∧ ks.Nodup ∧
          (∀ k, k ∈ ks ↔ (mergedValue procEnviron custom k).isSome = true)) ∧
    (∀ (ex : Externals) (w : World) (path : String) (build : Option LPKBuildBuildModel)
        (pub : Option LPKBuildPublishModel) (envVars : List (String × String))
        (p : String) (meta : lpkMetadata) (w' : World),
        runBuild ex w path build pub envVars = (.ok (p, meta), w') →
        (FS.lookupFile w.fs p).isSome = false →
        envVars ≠ [] →
        w'.trace = w.trace ++
          [Event.buildInvoke (some (commandEnvironment ex.procEnviron envVars))]) := by
  constructor
  · intro procEnviron custom hne hndC hndP
    unfold commandEnvironment
    rw [if_neg (by simpa using hne), envbase_eq_filterMap]
    set envlist := procEnviron.filterMap parsePair with henv
    set values := custom.foldl (fun m kv => mapPut m kv.1 kv.2)
      (envlist.foldl (fun m kv => mapPut m kv.1 kv.2) []) with hvalues
    have hval : ∀ k, alook values k = mergedValue procEnviron custom k := by
      intro k
      rw [hvalues, alook_foldl_mapPut, alook_reverse_nodup custom hndC]
      unfold mergedValue
      cases alook custom k with
      | some v => rfl
      | none =>
        simp only []
        rw [alook_foldl_mapPut, alook_reverse_nodup envlist hndP]
        cases alook envlist k <;> rfl
    have hkeysnd : (values.map Prod.fst).Nodup := by
      rw [hvalues]
      exact foldl_mapPut_keys_nodup custom _
        (foldl_mapPut_keys_nodup envlist [] (by simp))
    refine ⟨List.insertionSort (fun a b => a ≤ b) (values.map Prod.fst), ?_, ?_, ?_, ?_⟩
    · refine List.map_congr_left ?_
      intro k _
      rw [hval k]
    · exact List.sorted_insertionSort _ _
    · exact ((List.perm_insertionSort _ _).nodup_iff).mpr hkeysnd
    · intro k
      rw [(List.perm_insertionSort _ _).mem_iff, ← hval k]
      exact (alook_isSome_iff values k).symm
  · intro ex w path build pub envVars p meta w' h hc hne
    obtain ⟨_, _, _, _, _, _, _, _, _, hnone⟩ := runBuild_ok h
    obtain ⟨_, htr, _⟩ := hnone hc
    rw [htr, if_pos (by cases envVars with
      | nil => exact absurd rfl hne
      | cons a l => simp)]

/-- Closed instantiation of `C8_command_environment`. -/
theorem C8_command_environment_witness :
    ∃ ks : List String,
      commandEnvironment ["PATH=/bin", "HOME=/root"] [("B", "2"), ("PATH", "/x")] =
        ks.map (fun k => k ++ "=" ++
          ((mergedValue ["PATH=/bin", "HOME=/root"] [("B", "2"), ("PATH", "/x")] k).getD "")) ∧
      List.Sorted (fun a b => a ≤ b) ks ∧ ks.Nodup ∧
      (∀ k, k ∈ ks ↔
        (mergedValue ["PATH=/bin", "HOME=/root"] [("B", "2"), ("PATH", "/x")] k).isSome = true) :=
  C8_command_environment.1 ["PATH=/bin", "HOME=/root"] [("B", "2"), ("PATH", "/x")]
    (by decide) (by decide) (by decide)

/-! ## Helpers for the orchestrator-level claims -/

theorem removeAllDir_no_tmp (fs : FS) (d : String) :
    ∀ f ∈ removeAllDir fs d, underDir d f.path = false := by
  intro f hf
  have := List.of_mem_filter hf
  simpa using this

theorem applyCleanup_some_no_tmp (d : String) (w : World) :
    ∀ f ∈ (applyCleanup (some d) w).fs, underDir d f.path = false := by
  intro f hf
  exact removeAllDir_no_tmp w.fs d f hf

theorem applyCleanup_uploadCount (cd : Option String) (w : World) :
    countUploadCalls (applyCleanup cd w).trace = countUploadCalls w.trace := by
  cases cd with
  | none => rfl
  | some d =>
    simp [applyCleanup, countUploadCalls, List.filter_append, Event.isUploadCall]

theorem prepareSource_ok {ex : Externals} {w : World}
    {source : Option LPKBuildSourceModel} {wd : String} {cd : Option String} {w' : World}
    (h : prepareSource ex w source = (.ok (wd, cd), w')) :
    countUploadCalls w'.trace = countUploadCalls w.trace ∧
    (∀ src, source = some src → src.Local = none →
      ∀ g, src.Git = some g → cd = some ex.tmpName) := by
  unfold prepareSource at h
  cases source with
  | none => exact absurd h (by simp)
  | some src =>
    dsimp only at h
    cases hsl : src.Local with
    | some l =>
      rw [hsl] at h
      dsimp only at h
      by_cases hp : (l.Path.isNull || l.Path.valueString = "") = true
      · rw [if_pos hp] at h; exact absurd h (by simp)
      · rw [if_neg hp] at h
        simp only [Prod.mk.injEq, Except.ok.injEq] at h
        refine ⟨by rw [← h.2], ?_⟩
        intro src' hs hl g hg
        rw [show src' = src from by injection hs with hv; exact hv.symm] at hl
        rw [hsl] at hl
        exact absurd hl (by simp)
    | none =>
      rw [hsl] at h
      dsimp only at h
      cases hsg : src.Git with
      | none => rw [hsg] at h; exact absurd h (by simp)
      | some g =>
        rw [hsg] at h
        dsimp only at h
        by_cases hu : (g.URL.isNull || g.URL.valueString = "") = true
        · rw [if_pos hu] at h; exact absurd h (by simp)
        rw [if_neg hu] at h
        by_cases hm : ex.mkdirOk = false
        · rw [if_pos hm] at h; exact absurd h (by simp)
        rw [if_neg hm] at h
        by_cases hcl : ex.cloneOk = false
        · rw [if_pos hcl] at h; exact absurd h (by simp)
        rw [if_neg hcl] at h
        by_cases hr : (!g.Ref.isNull && g.Ref.valueString ≠ "") = true
        · rw [if_pos hr] at h
          by_cases hco : ex.checkoutOk = false
          · rw [if_pos hco] at h; exact absurd h (by simp)
          rw [if_neg hco] at h
          simp only [Prod.mk.injEq, Except.ok.injEq] at h
          refine ⟨?_, fun _ _ _ _ _ => by rw [← h.1.2]⟩
          rw [← h.2]
          simp [countUploadCalls, List.filter_append, Event.isUploadCall]
        · rw [if_neg hr] at h
          simp only [Prod.mk.injEq, Except.ok.injEq] at h
          refine ⟨?_, fun _ _ _ _ _ => by rw [← h.1.2]⟩
          rw [← h.2]
          simp [countUploadCalls, List.filter_append, Event.isUploadCall]

theorem prepareSource_error_no_tmp {ex : Externals} {w : World}
    {source : Option LPKBuildSourceModel} {e : GoError} {w' : World}
    (h : prepareSource ex w source = (.error e, w'))
    (hfresh : ∀ f ∈ w.fs, underDir ex.tmpName f.path = false) :
    ∀ f ∈ w'.fs, underDir ex.tmpName f.path = false := by
  unfold prepareSource at h
  cases source with
  | none =>
    dsimp only at h
    rw [show w' = w from by injection h with h1 h2; exact h2.symm]
    exact hfresh
  | some src =>
    dsimp only at h
    cases hsl : src.Local with
    | some l =>
      rw [hsl] at h
      dsimp only at h
      by_cases hp : (l.Path.isNull || l.Path.valueString = "") = true
      · rw [if_pos hp] at h
        rw [show w' = w from by injection h with h1 h2; exact h2.symm]
        exact hfresh
      · rw [if_neg hp] at h; exact absurd h (by simp)
    | none =>
      rw [hsl] at h
      dsimp only at h
      cases hsg : src.Git with
      | none =>
        rw [hsg] at h
        rw [show w' = w from by injection h with h1 h2; exact h2.symm]
        exact hfresh
      | some g =>
        rw [hsg] at h
        dsimp only at h
        by_cases hu : (g.URL.isNull || g.URL.valueString = "") = true
        · rw [if_pos hu] at h
          rw [show w' = w from by injection h with h1 h2; exact h2.symm]
          exact hfresh
        rw [if_neg hu] at h
        by_cases hm : ex.mkdirOk = false
        · rw [if_pos hm] at h
          rw [show w' = w from by injection h with h1 h2; exact h2.symm]
          exact hfresh
        rw [if_neg hm] at h
        by_cases hcl : ex.cloneOk = false
        · rw [if_pos hcl] at h
          rw [show w' = _ from by injection h with h1 h2; exact h2.symm]
          intro f hf
          exact removeAllDir_no_tmp _ _ f hf
        rw [if_neg hcl] at h
        by_cases hr : (!g.Ref.isNull && g.Ref.valueString ≠ "") = true
        · rw [if_pos hr] at h
          by_cases hco : ex.checkoutOk = false
          · rw [if_pos hco] at h
            rw [show w' = _ from by injection h with h1 h2; exact h2.symm]
            intro f hf
            exact removeAllDir_no_tmp _ _ f hf
          · rw [if_neg hco] at h; exact absurd h (by simp)
        · rw [if_neg hr] at h; exact absurd h (by simp)

theorem runBuild_ok_uploadCount {ex : Externals} {w : World} {path : String}
    {build : Option LPKBuildBuildModel} {pub : Option LPKBuildPublishModel}
    {envVars : List (String × String)} {p : String} {meta : lpkMetadata} {w' : World}
    (h : runBuild ex w path build pub envVars = (.ok (p, meta), w')) :
    countUploadCalls w'.trace = countUploadCalls w.trace := by
  obtain ⟨_, _, _, _, _, _, _, _, hsome, hnone⟩ := runBuild_ok h
  by_cases hc : (FS.lookupFile w.fs p).isSome = true
  · rw [hsome hc]
  · obtain ⟨_, htr, _⟩ := hnone (by simpa using hc)
    rw [htr]
    simp [countUploadCalls, List.filter_append, Event.isUploadCall]

theorem applyBuild_decompose {ex : Externals} {data : LPKBuildModel}
    {prior : Option LPKBuildModel} {w : World} {res : LPKBuildModel} {wfin : World}
    {wd : String} {cd : Option String} {w1 : World} {fs2 : FS}
    {lpkPath : String} {meta : lpkMetadata} {w3 : World}
    (hprep : prepareSource ex w data.Source = (.ok (wd, cd), w1))
    (hrender : renderTemplateFiles w1.fs wd (resolveTemplateExtension data.Env)
        (collectEnvVars data.Env) = .ok fs2)
    (hrun : runBuild ex { w1 with fs := fs2 } wd data.Build data.Publish
        (collectEnvVars data.Env) = (.ok (lpkPath, meta), w3))
    (happly : applyBuild ex data prior w = (.ok res, wfin)) :
    res.ID = .strVal (metaID meta) ∧
    (shouldPublish data.Publish = true → canReuseUpload prior meta = true →
      wfin = applyCleanup cd w3 ∧
      ∀ pr, prior = some pr →
        res.LPKURL = pr.LPKURL ∧ res.UploadID = pr.UploadID ∧
        res.SHA256 = .strVal meta.SHA256 ∧
        res.Version = (if pr.Version.isNull then .strVal meta.Version else pr.Version)) ∧
    (shouldPublish data.Publish = true → canReuseUpload prior meta = false →
      ∃ up un uv, ex.upload ex.user un uv lpkPath = .ok up ∧
        wfin = applyCleanup cd
          { w3 with trace := w3.trace ++ [Event.uploadCall un uv lpkPath] } ∧
        res.LPKURL = .strVal up.downloadURL ∧ res.UploadID = .strVal up.id ∧
        res.SHA256 = (if up.sha256 ≠ "" then .strVal up.sha256 else .strVal meta.SHA256) ∧
        res.Version = (if up.version ≠ "" then .strVal up.version else .strVal meta.Version)) ∧
    (shouldPublish data.Publish = false →
      wfin = applyCleanup cd w3 ∧ res.LPKURL = .null ∧ res.UploadID = .null ∧
      res.SHA256 = .strVal meta.SHA256 ∧ res.Version = .strVal meta.Version) := by
  unfold applyBuild at happly
  rw [hprep] at happly
  dsimp only at happly
  rw [hrender] at happly
  dsimp only at happly
  rw [hrun] at happly
  dsimp only at happly
  by_cases hsp : shouldPublish data.Publish = true
  · rw [if_pos hsp] at happly
    by_cases hcr : canReuseUpload prior meta = true
    · rw [if_pos hcr] at happly
      simp only [Prod.mk.injEq, Except.ok.injEq] at happly
      obtain ⟨hres, hwfin⟩ := happly
      refine ⟨by rw [← hres], fun _ _ => ⟨hwfin.symm, ?_⟩,
        fun _ hc => absurd hcr (by simp [hc]), fun hc => absurd hsp (by simp [hc])⟩
      intro pr hpr
      subst hpr
      rw [← hres]
      exact ⟨rfl, rfl, rfl, rfl⟩
    · rw [if_neg hcr] at happly
      cases hupo : ex.upload ex.user
          (match data.Publish with
           | some p =>
             if !p.Name.isNull && p.Name.valueString ≠ "" then p.Name.valueString
             else meta.Name
           | none => meta.Name)
          (match data.Publish with
           | some p =>
             if !p.Version.isNull && p.Version.valueString ≠ "" then p.Version.valueString
             else meta.Version
           | none => meta.Version) lpkPath with
      | error e =>
        rw [hupo] at happly
        exact absurd happly (by simp)
      | ok up =>
        rw [hupo] at happly
        simp only [Prod.mk.injEq, Except.ok.injEq] at happly
        obtain ⟨hres, hwfin⟩ := happly
        refine ⟨by rw [← hres], fun _ hc => absurd hc (by simp [hcr]),
          fun _ _ => ⟨up, _, _, hupo, hwfin.symm, ?_⟩, fun hc => absurd hsp (by simp [hc])⟩
        rw [← hres]
        exact ⟨rfl, rfl, rfl, rfl⟩
  · rw [if_neg hsp] at happly
    simp only [Prod.mk.injEq, Except.ok.injEq] at happly
    obtain ⟨hres, hwfin⟩ := happly
    refine ⟨by rw [← hres], fun hc => absurd hc hsp, fun hc => absurd hc hsp,
      fun _ => ⟨hwfin.symm, ?_⟩⟩
    rw [← hres]
    exact ⟨rfl, rfl, rfl, rfl⟩

theorem canReuseUpload_some {prior : Option LPKBuildModel} {meta : lpkMetadata}
    (h : canReuseUpload prior meta = true) : ∃ pr, prior = some pr := by
  cases prior with
  | none => simp [canReuseUpload] at h
  | some pr => exact ⟨pr, rfl⟩

theorem canReuseUpload_char (pr : LPKBuildModel) (meta : lpkMetadata)
    (hsha : pr.SHA256.isUnknown = false) :
    canReuseUpload (some pr) meta = true ↔
      (pr.UploadID.valueString ≠ "" ∧ pr.LPKURL.valueString ≠ "" ∧
        pr.SHA256 = .strVal meta.SHA256) := by
  unfold canReuseUpload
  cases hU : pr.UploadID <;> cases hL : pr.LPKURL <;> cases hS : pr.SHA256 <;>
    simp_all [TString.isNull, TString.isUnknown, TString.valueString]

/-! ## C3 -/

/-- C3: with publishing enabled, the prior upload is reused (no upload call,
prior download URL and upload ID returned unchanged) exactly when a prior
state exists whose upload ID and download URL are non-empty and whose
recorded content hash equals the current artifact's content hash; when a
recorded hash differs from the current hash, exactly one upload call is
made. -/
theorem C3_publish_reuse (ex : Externals) (data : LPKBuildModel)
    (prior : Option LPKBuildModel) (w w1 : World) (wd : String) (cd : Option String)
    (fs2 : FS) (lpkPath : String) (meta : lpkMetadata) (w3 : World)
    (res : LPKBuildModel) (wfin : World)
    (hprep : prepareSource ex w data.Source = (.ok (wd, cd), w1))
    (hrender : renderTemplateFiles w1.fs wd (resolveTemplateExtension data.Env)
        (collectEnvVars data.Env) = .ok fs2)
    (hrun : runBuild ex { w1 with fs := fs2 } wd data.Build data.Publish
        (collectEnvVars data.Env) = (.ok (lpkPath, meta), w3))
    (hpub : shouldPublish data.Publish = true)
    (happly : applyBuild ex data prior w = (.ok res, wfin))
    (htr : w.trace = [])
    (hknown : ∀ pr, prior = some pr → pr.SHA256.isUnknown = false) :
    ((countUploadCalls wfin.trace = 0 ∧
        ∃ pr, prior = some pr ∧ res.LPKURL = pr.LPKURL ∧ res.UploadID = pr.UploadID) ↔
      (∃ pr, prior = some pr ∧ pr.UploadID.valueString ≠ "" ∧
        pr.LPKURL.valueString ≠ "" ∧ pr.SHA256 = .strVal meta.SHA256)) ∧
    (∀ pr h', prior = some pr → pr.SHA256 = .strVal h' → h' ≠ meta.SHA256 →
      countUploadCalls wfin.trace = 1) := by
  obtain ⟨hid, hreuse, hupload, hnopub⟩ := applyBuild_decompose hprep hrender hrun happly
  have hcw1 : countUploadCalls w1.trace = 0 := by
    rw [(prepareSource_ok hprep).1, htr]
    rfl
  have hcount3 : countUploadCalls w3.trace = 0 := by
    have h2 := runBuild_ok_uploadCount hrun
    dsimp only at h2
    rw [h2, hcw1]
  by_cases hcr : canReuseUpload prior meta = true
  · obtain ⟨pr, hpr⟩ := canReuseUpload_some hcr
    obtain ⟨hwfin, hfields⟩ := hreuse hpub hcr
    obtain ⟨hurl, hupid, _, _⟩ := hfields pr hpr
    have hcount : countUploadCalls wfin.trace = 0 := by
      rw [hwfin, applyCleanup_uploadCount, hcount3]
    have hchar := (canReuseUpload_char pr meta (hknown pr hpr)).mp (by rw [← hpr]; exact hcr)
    refine ⟨⟨fun _ => ⟨pr, hpr, hchar⟩, fun _ => ⟨hcount, pr, hpr, hurl, hupid⟩⟩, ?_⟩
    intro pr' h' hpr' hsha' hne
    rw [hpr] at hpr'
    have hpe : pr' = pr := by injection hpr' with hv; exact hv.symm
    subst hpe
    rw [hchar.2.2] at hsha'
    exact absurd (by injection hsha' with hv; exact hv.symm) hne
  · have hcrf : canReuseUpload prior meta = false := by simpa using hcr
    obtain ⟨up, un, uv, hupo, hwfin, _⟩ := hupload hpub hcrf
    have hcount : countUploadCalls wfin.trace = 1 := by
      have hsplit : countUploadCalls (w3.trace ++ [Event.uploadCall un uv lpkPath]) =
          countUploadCalls w3.trace + countUploadCalls [Event.uploadCall un uv lpkPath] := by
        unfold countUploadCalls
        rw [List.filter_append, List.length_append]
      rw [hwfin, applyCleanup_uploadCount]
      dsimp only
      rw [hsplit, hcount3]
      rfl
    refine ⟨⟨fun hl => absurd hl.1 (by rw [hcount]; simp), fun hr => ?_⟩,
      fun _ _ _ _ _ => hcount⟩
    obtain ⟨pr, hpr, hconds⟩ := hr
    rw [hpr] at hcrf
    rw [(canReuseUpload_char pr meta (hknown pr hpr)).mpr hconds] at hcrf
    exact absurd hcrf (by simp)

/-! ## C9 -/

/-- C9: for a git-source apply, the ephemeral staging directory is removed on
every exit path: the final world never retains a file under the staging
directory, and a resolver failure (clone/checkout) already returns a world
with no file under it. -/
theorem C9_git_cleanup (ex : Externals) (data : LPKBuildModel)
    (prior : Option LPKBuildModel) (w : World) (src : LPKBuildSourceModel)
    (g : LPKBuildSourceGitModel) (res : Except GoError LPKBuildModel) (wfin : World)
    (hsrc : data.Source = some src) (hl : src.Local = none) (hg : src.Git = some g)
    (hfresh : ∀ f ∈ w.fs, underDir ex.tmpName f.path = false)
    (happly : applyBuild ex data prior w = (res, wfin)) :
    (∀ f ∈ wfin.fs, underDir ex.tmpName f.path = false) ∧
    (∀ e w', prepareSource ex w data.Source = (.error e, w') →
      ∀ f ∈ w'.fs, underDir ex.tmpName f.path = false) := by
  constructor
  · unfold applyBuild at happly
    cases hps : prepareSource ex w data.Source with
    | mk r1 w1 =>
      rw [hps] at happly
      cases r1 with
      | error e =>
        dsimp only at happly
        rw [show wfin = w1 from by injection happly with h1 h2; exact h2.symm]
        exact prepareSource_error_no_tmp hps hfresh
      | ok pr1 =>
        obtain ⟨wd, cd⟩ := pr1
        dsimp only at happly
        have hcd : cd = some ex.tmpName := (prepareSource_ok hps).2 src hsrc hl g hg
        subst hcd
        cases hr : renderTemplateFiles w1.fs wd (resolveTemplateExtension data.Env)
            (collectEnvVars data.Env) with
        | error e =>
          rw [hr] at happly
          dsimp only at happly
          rw [show wfin = _ from by injection happly with h1 h2; exact h2.symm]
          exact applyCleanup_some_no_tmp ex.tmpName w1
        | ok fs2 =>
          rw [hr] at happly
          dsimp only at happly
          cases hrb : runBuild ex { w1 with fs := fs2 } wd data.Build data.Publish
              (collectEnvVars data.Env) with
          | mk r3 w3 =>
            rw [hrb] at happly
            cases r3 with
            | error e =>
              dsimp only at happly
              rw [show wfin = _ from by injection happly with h1 h2; exact h2.symm]
              exact applyCleanup_some_no_tmp ex.tmpName w3
            | ok pm =>
              obtain ⟨lpkPath, meta⟩ := pm
              dsimp only at happly
              by_cases hsp : shouldPublish data.Publish = true
              · rw [if_pos hsp] at happly
                by_cases hcr : canReuseUpload prior meta = true
                · rw [if_pos hcr] at happly
                  rw [show wfin = _ from by injection happly with h1 h2; exact h2.symm]
                  exact applyCleanup_some_no_tmp ex.tmpName w3
                · rw [if_neg hcr] at happly
                  cases hupo : ex.upload ex.user
                      (match data.Publish with
                       | some p =>
                         if !p.Name.isNull && p.Name.valueString ≠ "" then p.Name.valueString
                         else meta.Name
                       | none => meta.Name)
                      (match data.Publish with
                       | some p =>
                         if !p.Version.isNull && p.Version.valueString ≠ "" then
                           p.Version.valueString
                         else meta.Version
                       | none => meta.Version) lpkPath with
                  | error e =>
                    rw [hupo] at happly
                    dsimp only at happly
                    rw [show wfin = _ from by injection happly with h1 h2; exact h2.symm]
                    exact applyCleanup_some_no_tmp ex.tmpName _
                  | ok up =>
                    rw [hupo] at happly
                    dsimp only at happly
                    rw [show wfin = _ from by injection happly with h1 h2; exact h2.symm]
                    exact applyCleanup_some_no_tmp ex.tmpName _
              · rw [if_neg hsp] at happly
                rw [show wfin = _ from by injection happly with h1 h2; exact h2.symm]
                exact applyCleanup_some_no_tmp ex.tmpName w3
  · intro e w' hpse
    exact prepareSource_error_no_tmp hpse hfresh

/-! ## C10 -/

/-- C10: the reported ID is `{appID}-{version}-{hash}` assembled from the
build metadata — the manifest appID, the metadata version (manifest version,
or the publish-config override when non-empty) and the locally computed
artifact content hash; when the upload response carries a non-empty sha256
or version, the state's sha256/version fields take the registry-reported
values while the ID keeps the local ones. -/
theorem C10_id_derivation (ex : Externals) (data : LPKBuildModel)
    (prior : Option LPKBuildModel) (w w1 : World) (wd : String) (cd : Option String)
    (fs2 : FS) (lpkPath : String) (meta : lpkMetadata) (w3 : World)
    (res : LPKBuildModel) (wfin : World) (mf : FSFile) (manifest : ManifestYAML)
    (hprep : prepareSource ex w data.Source = (.ok (wd, cd), w1))
    (hrender : renderTemplateFiles w1.fs wd (resolveTemplateExtension data.Env)
        (collectEnvVars data.Env) = .ok fs2)
    (hrun : runBuild ex { w1 with fs := fs2 } wd data.Build data.Publish
        (collectEnvVars data.Env) = (.ok (lpkPath, meta), w3))
    (happly : applyBuild ex data prior w = (.ok res, wfin))
    (hmf : FS.lookupFile fs2 (wd ++ "/lzc-manifest.yml") = some mf)
    (hman : ex.unmarshalManifest mf.content = .ok manifest) :
    res.ID = .strVal (meta.AppID ++ "-" ++ meta.Version ++ "-" ++ meta.SHA256) ∧
    meta.AppID = manifest.AppID ∧
    meta.Version = overrideVersion data.Publish manifest.Version ∧
    (shouldPublish data.Publish = true → canReuseUpload prior meta = false →
      ∃ up un uv, ex.upload ex.user un uv lpkPath = .ok up ∧
        res.SHA256 = (if up.sha256 ≠ "" then .strVal up.sha256 else .strVal meta.SHA256) ∧
        res.Version = (if up.version ≠ "" then .strVal up.version else .strVal meta.Version)) := by
  obtain ⟨hid, hreuse, hupload, hnopub⟩ := applyBuild_decompose hprep hrender hrun happly
  obtain ⟨mf', manifest', hmf', hman', hn, hv, hp, ⟨f, hf, hmeta⟩, hsome, hnone⟩ :=
    runBuild_ok hrun
  dsimp only at hmf'
  have hmfe : mf' = mf := by
    rw [hmf] at hmf'
    injection hmf' with hv
    exact hv.symm
  subst hmfe
  have hmane : manifest' = manifest := by
    rw [hman] at hman'
    injection hman' with hv
    exact hv.symm
  subst hmane
  refine ⟨by rw [hid]; rfl, by rw [hmeta], by rw [hmeta], ?_⟩
  intro hsp hcr
  obtain ⟨up, un, uv, hupo, _, _, _, hsha, hver⟩ := hupload hsp hcr
  exact ⟨up, un, uv, hupo, hsha, hver⟩

/-- Concrete plan model (local source, defaults elsewhere) for witnesses. -/
def dataW : LPKBuildModel :=
  { ID := .null, Source := some ⟨some ⟨.strVal "/w"⟩, none⟩, Build := none,
    Publish := none, Env := none, LPKURL := .null, SHA256 := .null,
    AppID := .null, Version := .null, LocalPath := .null, UploadID := .null }

/-- Concrete prior state whose recorded hash matches the current artifact. -/
def prW : LPKBuildModel :=
  { ID := .null, Source := none, Build := none, Publish := none, Env := none,
    LPKURL := .strVal "http://registry/d/0", SHA256 := .strVal "h3",
    AppID := .strVal "a1", Version := .strVal "1.0.0", LocalPath := .null,
    UploadID := .strVal "id0" }

/-- The metadata the concrete build produces. -/
def metaW : lpkMetadata := ⟨"a1", "1.0.0", "h3", "app-1.0.0-h8"⟩

/-- The world after the concrete build step. -/
def w3W : World :=
  ⟨[⟨"/w/lzc-manifest.yml", "manifest", 1⟩, ⟨"/w/app-1.0.0-h8.lpk", "ART", 10⟩],
   [Event.buildInvoke none]⟩

/-- The resource model the concrete reuse apply returns. -/
def resW3 : LPKBuildModel :=
  { dataW with
    ID := .strVal "a1-1.0.0-h3", LPKURL := .strVal "http://registry/d/0",
    SHA256 := .strVal "h3", AppID := .strVal "a1", Version := .strVal "1.0.0",
    LocalPath := .strVal "/w/app-1.0.0-h8.lpk", UploadID := .strVal "id0" }

/-- Closed instantiation of `C3_publish_reuse` (matching prior hash: reuse). -/
theorem C3_publish_reuse_witness :
    ((countUploadCalls w3W.trace = 0 ∧
        ∃ pr, (some prW : Option LPKBuildModel) = some pr ∧
          resW3.LPKURL = pr.LPKURL ∧ resW3.UploadID = pr.UploadID) ↔
      (∃ pr, (some prW : Option LPKBuildModel) = some pr ∧
        pr.UploadID.valueString ≠ "" ∧ pr.LPKURL.valueString ≠ "" ∧
        pr.SHA256 = .strVal metaW.SHA256)) ∧
    (∀ pr h', (some prW : Option LPKBuildModel) = some pr →
      pr.SHA256 = .strVal h' → h' ≠ metaW.SHA256 →
      countUploadCalls w3W.trace = 1) :=
  C3_publish_reuse exW dataW (some prW) wW wW "/w" none wW.fs
    "/w/app-1.0.0-h8.lpk" metaW w3W resW3 w3W
    (by decide) (by decide) (by decide) rfl (by decide) rfl
    (by
      intro pr hpr
      rw [show pr = prW from by injection hpr with hv; exact hv.symm]
      rfl)

/-- Concrete plan model with a git source for the cleanup witness. -/
def gitDataW : LPKBuildModel :=
  { dataW with Source := some ⟨none, some ⟨.strVal "https://x/r.git", .null, .null⟩⟩ }

/-- The world the concrete git apply ends in (clone ran, cleanup ran). -/
def wfinG : World :=
  ⟨[⟨"/w/lzc-manifest.yml", "manifest", 1⟩],
   [Event.cloneCall "https://x/r.git", Event.removeAllCall "/tmp/lpk-build-1"]⟩

/-- Closed instantiation of `C9_git_cleanup`. -/
theorem C9_git_cleanup_witness :
    (∀ f ∈ wfinG.fs, underDir exW.tmpName f.path = false) ∧
    (∀ e w', prepareSource exW wW gitDataW.Source = (.error e, w') →
      ∀ f ∈ w'.fs, underDir exW.tmpName f.path = false) :=
  C9_git_cleanup exW gitDataW none wW ⟨none, some ⟨.strVal "https://x/r.git", .null, .null⟩⟩
    ⟨.strVal "https://x/r.git", .null, .null⟩
    (.error (.wrapped "read manifest: "
      (.simple "open /tmp/lpk-build-1/repo/lzc-manifest.yml: no such file or directory")))
    wfinG rfl rfl rfl (by decide) (by decide)

/-- The resource model the concrete no-prior apply returns (upload taken;
registry-reported sha256/version win in the state, the ID keeps the locally
computed ones). -/
def resUp : LPKBuildModel :=
  { dataW with
    ID := .strVal "a1-1.0.0-h3", LPKURL := .strVal "http://registry/d/1",
    SHA256 := .strVal "regsha", AppID := .strVal "a1", Version := .strVal "2.0.0",
    LocalPath := .strVal "/w/app-1.0.0-h8.lpk", UploadID := .strVal "id1" }

/-- The final world of the concrete no-prior apply. -/
def wfinUp : World :=
  ⟨[⟨"/w/lzc-manifest.yml", "manifest", 1⟩, ⟨"/w/app-1.0.0-h8.lpk", "ART", 10⟩],
   [Event.buildInvoke none, Event.uploadCall "app-1.0.0-h8" "1.0.0" "/w/app-1.0.0-h8.lpk"]⟩

/-- Closed instantiation of `C10_id_derivation`; the extra conjuncts record
that the state's sha256 and version indeed diverge from the values embedded
in the ID. -/
theorem C10_id_derivation_witness :
    (resUp.ID = .strVal (metaW.AppID ++ "-" ++ metaW.Version ++ "-" ++ metaW.SHA256) ∧
     metaW.AppID = "a1" ∧
     metaW.Version = overrideVersion dataW.Publish "1.0.0" ∧
     (shouldPublish dataW.Publish = true →
      canReuseUpload (none : Option LPKBuildModel) metaW = false →
      ∃ up un uv, exW.upload exW.user un uv "/w/app-1.0.0-h8.lpk" = .ok up ∧
        resUp.SHA256 = (if up.sha256 ≠ "" then .strVal up.sha256 else .strVal metaW.SHA256) ∧
        resUp.Version = (if up.version ≠ "" then .strVal up.version else .strVal metaW.Version))) ∧
    resUp.SHA256 ≠ .strVal metaW.SHA256 ∧ resUp.Version ≠ .strVal metaW.Version :=
  ⟨(fun h => ⟨h.1, h.2.1, h.2.2.1, h.2.2.2⟩)
    (C10_id_derivation exW dataW none wW wW "/w" none wW.fs
      "/w/app-1.0.0-h8.lpk" metaW w3W resUp wfinUp
      ⟨"/w/lzc-manifest.yml", "manifest", 1⟩ ⟨"a1", "1.0.0", "app"⟩
      (by decide) (by decide) (by decide) (by decide) (by decide) (by decide)),
   by decide, by decide⟩
